import Mathlib

/-! The Decimal column codec (`lib/column/decimal.go`).

A shallow embedding of the fixed-point `Decimal(P,S)` column: the descriptor
parser (`parseDecimal`), the 16-byte two's-complement transcoder
(`decimal128ToBigInt`, `bigIntToDecimal128`, `endianSwap`), the native-integer
fast paths, the per-width writers and the reader.  Go byte slices are lists of
bytes, `*big.Int` values are integers, and a function that overwrites an
argument returns the argument's final contents next to its result.
-/

namespace Column

/-! ## Bytes and the `math/big` primitives used by the transcoder -/

/-- A Go `byte`. -/
abbrev Byte := Fin 256

/-- Go's `^b` on a byte. -/
def bnot (b : Byte) : Byte := ⟨255 - b.val, Nat.lt_succ_of_le (Nat.sub_le 255 b.val)⟩

/-- The `big.Int.Not` operation: `^x = -x - 1`. -/
def bigNot (x : Int) : Int := -x - 1

/-- The `big.Int.SetBytes` operation: the slice read as a big-endian unsigned integer. -/
def setBytes (buf : List Byte) : Nat :=
  buf.foldl (fun acc b => acc * 256 + b.val) 0

/-- The `n` low base-256 digits of `x`, least significant first. -/
def leBytes : Nat → Nat → List Byte
  | 0, _ => []
  | n + 1, x => ⟨x % 256, Nat.mod_lt x (by decide)⟩ :: leBytes n (x / 256)

/-- The `big.Int.FillBytes` operation on a buffer of `n` bytes: the absolute value of `x`
as a zero-extended big-endian slice; `none` is the panic when it does not fit. -/
def fillBytes (x : Int) (n : Nat) : Option (List Byte) :=
  if x.natAbs < 256 ^ n then some (leBytes n x.natAbs).reverse else none

/-! ## Fixed-width integer conversions -/

/-- Go's conversion `int32(x)`: the value of the low 32 bits, read as signed. -/
def int32 (x : Int) : Int := (x + 2 ^ 31) % 2 ^ 32 - 2 ^ 31

/-- Go's conversion `int64(x)`: the value of the low 64 bits, read as signed. -/
def int64 (x : Int) : Int := (x + 2 ^ 63) % 2 ^ 64 - 2 ^ 63

/-- Go's conversion `uint32(x)`. -/
def uint32 (x : Int) : Nat := (x % 2 ^ 32).toNat

/-- Go's conversion `uint64(x)`. -/
def uint64 (x : Int) : Nat := (x % 2 ^ 64).toNat

/-- The constant `math.MaxInt32`. -/
def MaxInt32 : Int := 2 ^ 31 - 1

/-- The constant `math.MinInt32`. -/
def MinInt32 : Int := -(2 ^ 31)

/-- The constant `math.MaxInt64`. -/
def MaxInt64 : Int := 2 ^ 63 - 1

/-- The constant `math.MinInt64`. -/
def MinInt64 : Int := -(2 ^ 63)

/-- The `big.Int.Int64` operation: the low 64 bits of the magnitude, negated for a negative
argument, with no range check. -/
def bigInt64 (x : Int) : Int :=
  let v := int64 (x.natAbs % 2 ^ 64 : Nat)
  if x < 0 then int64 (-v) else v

/-- The `big.Int.String` operation: base-10 digits with a leading `-` when negative. -/
def bigIntString (x : Int) : List Char :=
  if x < 0 then '-' :: Nat.toDigits 10 x.natAbs else Nat.toDigits 10 x.natAbs

/-! ## The arbitrary-precision decimal of `github.com/shopspring/decimal`

The column code calls this library for every decimal and string input and to render
what it reads.  The operations below follow the library: a decimal is a coefficient
`value` and an `int32` exponent `exp`, standing for `value * 10 ^ exp`. -/

namespace sdecimal

/-- The library's `Decimal`: `value * 10 ^ exp`. -/
structure Decimal where
  value : Int
  exp : Int
  deriving DecidableEq, Repr

/-- The constructor `New(value int64, exp int32)`. -/
def New (value : Int) (exp : Int) : Decimal := ⟨value, exp⟩

/-- The constructor `NewFromBigInt(value *big.Int, exp int32)`. -/
def NewFromBigInt (value : Int) (exp : Int) : Decimal := ⟨value, exp⟩

/-- The library's `Zero`, which is `New(0, 1)`. -/
def Zero : Decimal := New 0 1

/-- The method `Exponent()`. -/
def Decimal.Exponent (d : Decimal) : Int := d.exp

/-- The method `Coefficient()`. -/
def Decimal.Coefficient (d : Decimal) : Int := d.value

/-- The method `rescale(exp)`: the same number at exponent `exp`, the coefficient
multiplied by a power of ten, or divided by one with truncation toward zero. -/
def Decimal.rescale (d : Decimal) (exp : Int) : Decimal :=
  if d.exp = exp then d
  else
    let diff := (exp - d.exp).natAbs
    let expScale : Int := 10 ^ diff
    if exp > d.exp then ⟨Int.tdiv d.value expScale, exp⟩
    else ⟨d.value * expScale, exp⟩

/-- The method `Cmp(d2)`: both sides are brought to the smaller exponent and the
coefficients compared. -/
def Decimal.Cmp (d d2 : Decimal) : Ordering :=
  if d.exp = d2.exp then compare d.value d2.value
  else
    let baseScale := min d.exp d2.exp
    compare (d.rescale baseScale).value (d2.rescale baseScale).value

/-- The method `Equal(d2)`. -/
def Decimal.Equal (d d2 : Decimal) : Bool := d.Cmp d2 == .eq

/-- The method `IntPart()`: the integer part as an `int64`, through `big.Int.Int64`. -/
def Decimal.IntPart (d : Decimal) : Int := bigInt64 (d.rescale 0).value

/-- The method `BigInt()`: the integer part as a fresh `*big.Int`. -/
def Decimal.BigInt (d : Decimal) : Int := (d.rescale 0).value

/-- The digits of `strconv.ParseInt` in base 10: one or more ASCII digits. -/
def parseDigits (s : List Char) : Option Nat :=
  if s.isEmpty || !s.all Char.isDigit then none
  else some (s.foldl (fun acc c => acc * 10 + (c.toNat - 48)) 0)

/-- An optionally signed base-10 integer, as `strconv.ParseInt` and `big.Int.SetString`
read it. -/
def parseSigned : List Char → Option Int
  | '+' :: r => (parseDigits r).map Int.ofNat
  | '-' :: r => (parseDigits r).map (fun n => -(n : Int))
  | r => (parseDigits r).map Int.ofNat

/-- The constructor `NewFromString(value)`: an optional `e`/`E` exponent is split off, at
most one `.` is removed from the mantissa and the number of digits after it subtracted
from the exponent; `none` is the library's error. -/
def NewFromString (value : String) : Option Decimal :=
  let (mant, rest) := value.data.span (fun c => c != 'e' && c != 'E')
  let exp0 : Option Int :=
    match rest with
    | [] => some 0
    | _ :: e => (parseSigned e).filter (fun x => decide (-(2 ^ 31) ≤ x ∧ x ≤ 2 ^ 31 - 1))
  match exp0 with
  | none => none
  | some exp0 =>
    if mant.count '.' > 1 then none
    else
      let (ip, fp) := mant.span (fun c => c != '.')
      let (intString, exp) : List Char × Int :=
        match fp with
        | [] => (mant, exp0)
        | _ :: frac => (ip ++ frac, exp0 - frac.length)
      match parseSigned intString with
      | none => none
      | some dValue =>
        if exp < -(2 ^ 31) ∨ exp > 2 ^ 31 - 1 then none else some ⟨dValue, exp⟩

/-- The method `string(trimTrailingZeros)`: for a negative exponent the digits of the
magnitude are split `-exp` places from the right (zero-padded on the left when too
short), trailing zeros of the fraction are dropped when asked, and the point is written
only before a non-empty fraction. -/
def Decimal.string (d : Decimal) (trimTrailingZeros : Bool) : List Char :=
  if d.exp ≥ 0 then bigIntString (d.rescale 0).value
  else
    let str := Nat.toDigits 10 d.value.natAbs
    let n := (-d.exp).toNat
    let (intPart, fractionalPart) : List Char × List Char :=
      if str.length > n then (str.take (str.length - n), str.drop (str.length - n))
      else (['0'], List.replicate (n - str.length) '0' ++ str)
    let fractionalPart :=
      if trimTrailingZeros then (fractionalPart.reverse.dropWhile (fun c => c == '0')).reverse
      else fractionalPart
    let number := if fractionalPart.length > 0 then intPart ++ '.' :: fractionalPart else intPart
    if d.value < 0 then '-' :: number else number

/-- The method `String()`, which is `string(true)`. -/
def Decimal.String (d : Decimal) : String := String.mk (d.string true)

end sdecimal

/-! ## The transcoder -/

/-- One pass of `endianSwap`'s loop body at index `i`. -/
def endianSwapStep (not : Bool) (src : List Byte) (i : Nat) : List Byte :=
  let lo := src.getD i 0
  let hi := src.getD (src.length - i - 1) 0
  if not then
    (src.set i (bnot hi)).set (src.length - i - 1) (bnot lo)
  else
    (src.set i hi).set (src.length - i - 1) lo

/-- The function `endianSwap(src, not)`: the loop `for i := 0; i < len(src)/2; i++`
exchanging `src[i]` and `src[len(src)-i-1]`, complementing both when `not` is set.
The result is the final contents of `src`. -/
def endianSwap (src : List Byte) (not : Bool) : List Byte :=
  (List.range (src.length / 2)).foldl (endianSwapStep not) src

/-- The little-endian value of a byte list: the sum of `b[i] * 256 ^ i`. -/
def leValue : List Byte → Nat
  | [] => 0
  | b :: bs => b.val + 256 * leValue bs

/-! ## Values, the column descriptor and errors -/

/-- The payload of a Go value the writers can be handed: one constructor per dynamic
type of the type switches, integers by their numeric value, floats by their IEEE bit
pattern; `bool` stands for the types no case of the switches names. -/
inductive Scalar
  | int (v : Int)
  | int8 (v : Int)
  | int16 (v : Int)
  | int32 (v : Int)
  | int64 (v : Int)
  | uint (v : Int)
  | uint8 (v : Int)
  | uint16 (v : Int)
  | uint32 (v : Int)
  | uint64 (v : Int)
  | float32 (bits : Nat)
  | float64 (bits : Nat)
  | string (s : String)
  | decimal (d : sdecimal.Decimal)
  | bytes (b : List Byte)
  | bool (b : Bool)
  deriving DecidableEq, Repr

/-- An `interface{}` argument: the untyped `nil`, a value `T`, a non-nil reference `*T`,
or the nil `*sdecimal.Decimal` that `parseShopSpringDecimalValue` tests for. -/
inductive Value
  | nil
  | val (s : Scalar)
  | ref (s : Scalar)
  | nilDecimalRef
  deriving DecidableEq, Repr

/-- Whether the payload lies in the range of its Go type (`int` and `uint` are 64 bits wide). -/
def Scalar.inRange : Scalar → Prop
  | .int v => -(2 ^ 63) ≤ v ∧ v ≤ 2 ^ 63 - 1
  | .int8 v => -(2 ^ 7) ≤ v ∧ v ≤ 2 ^ 7 - 1
  | .int16 v => -(2 ^ 15) ≤ v ∧ v ≤ 2 ^ 15 - 1
  | .int32 v => -(2 ^ 31) ≤ v ∧ v ≤ 2 ^ 31 - 1
  | .int64 v => -(2 ^ 63) ≤ v ∧ v ≤ 2 ^ 63 - 1
  | .uint v => 0 ≤ v ∧ v ≤ 2 ^ 64 - 1
  | .uint8 v => 0 ≤ v ∧ v ≤ 2 ^ 8 - 1
  | .uint16 v => 0 ≤ v ∧ v ≤ 2 ^ 16 - 1
  | .uint32 v => 0 ≤ v ∧ v ≤ 2 ^ 32 - 1
  | .uint64 v => 0 ≤ v ∧ v ≤ 2 ^ 64 - 1
  | .decimal d => -(2 ^ 31) ≤ d.exp ∧ d.exp ≤ 2 ^ 31 - 1
  | _ => True

/-- The struct `Decimal` of the column: the name and type text of its `base`, the storage
width `nobits`, and the precision and scale. -/
structure Decimal where
  name : String
  chType : String
  nobits : Int
  precision : Int
  scale : Int
  deriving DecidableEq, Repr

/-- What a call can end with other than success: the errors the column code builds, the
error of `sdecimal.NewFromString`, the decoder running out of input, and a run-time panic
(which is not a returned error).  The last five are the errors of `parseDecimal`:
"invalid Decimal format", "is not Decimal type" (a field `strconv.Atoi` refuses), "wrong
precision of Decimal type", "wrong scale of Decimal type" and "precision of Decimal
exceeds max bound". -/
inductive Error
  | expected16Bytes
  | narrowingOverflow (src dst : String)
  | unexpectedType (T : Value) (column : Decimal)
  | unachievable
  | newFromString
  | eof
  | panic (reason : String)
  | invalidFormat (chType : String)
  | notDecimalType (chType : String)
  | wrongPrecision
  | wrongScale
  | precisionExceeds
  deriving DecidableEq, Repr

/-- The floating-point arithmetic of the host, taken as given: `widen` is `float64(v)` for
a `float32`, and `mulToInt32 f p` / `mulToInt64 f p` are `int32(f * p)` / `int64(f * p)`
for a `float64` with bit pattern `f` and the table entry `p`. -/
structure FloatOps where
  widen : Nat → Nat
  mulToInt32 : Nat → Nat → Int
  mulToInt64 : Nat → Nat → Int

/-- The table `factors10`: the powers of ten `1e0 .. 1e18`, by their exact values. -/
def factors10 : List Nat :=
  [1, 10, 100, 1000, 10000, 100000, 1000000, 10000000, 100000000, 1000000000,
   10000000000, 100000000000, 1000000000000, 10000000000000, 100000000000000,
   1000000000000000, 10000000000000000, 100000000000000000, 1000000000000000000]

/-- The index expression `factors10[i]`, which panics outside the table. -/
def factors10At (i : Int) : Except Error Nat :=
  if i < 0 then .error (.panic "index out of range")
  else
    match factors10[i.toNat]? with
    | some p => .ok p
    | none => .error (.panic "index out of range")

/-! ## The transport's encoder and decoder -/

/-- Modelled from the spec: the encoder's `Int32` write primitive of `lib/binary`, which is
not among the sources; a width-32 wire value is 4 bytes, signed little-endian. -/
def Encoder.Int32 (v : Int) : Except Error (List Byte) := .ok (leBytes 4 (uint32 v))

/-- Modelled from the spec: the encoder's `Int64` write primitive of `lib/binary`, which is
not among the sources; a width-64 wire value is 8 bytes, signed little-endian. -/
def Encoder.Int64 (v : Int) : Except Error (List Byte) := .ok (leBytes 8 (uint64 v))

/-- Modelled from the spec: the encoder's `Decimal128` write primitive of `lib/binary`,
which is not among the sources; the buffer goes to the wire as it is. -/
def Encoder.Decimal128 (bytes : List Byte) : Except Error (List Byte) := .ok bytes

/-- Modelled from the spec: the decoder's `UInt32` read primitive of `lib/binary`, which is
not among the sources; 4 bytes read as an unsigned little-endian integer. -/
def Decoder.UInt32 (input : List Byte) : Except Error Nat :=
  if input.length < 4 then .error .eof else .ok (leValue (input.take 4))

/-- Modelled from the spec: the decoder's `Int64` read primitive of `lib/binary`, which is
not among the sources; 8 bytes read as a signed little-endian integer. -/
def Decoder.Int64 (input : List Byte) : Except Error Int :=
  if input.length < 8 then .error .eof else .ok (int64 (leValue (input.take 8)))

/-- Modelled from the spec: the decoder's `Decimal128` read primitive of `lib/binary`,
which is not among the sources; 16 raw bytes. -/
def Decoder.Decimal128 (input : List Byte) : Except Error (List Byte) :=
  if input.length < 16 then .error .eof else .ok (input.take 16)

/-! ## The 128-bit conversions -/

/-- The function `decimal128ToBigInt(v)`: the decoded integer together with the final
contents of `v`, which the function overwrites in place. -/
def decimal128ToBigInt (v : List Byte) : Except Error (Int × List Byte) :=
  if v.length ≠ 16 then
    .error .expected16Bytes
  else
    let v1 := endianSwap v false
    if 0 < v1.length ∧ (v1.getD 0 0).val &&& 0x80 ≠ 0 then
      let v2 := v1.map bnot
      .ok (bigNot (setBytes v2), v2)
    else
      .ok (setBytes v1, v1)

/-- The function `bigIntToDecimal128(v)`: the value `v` holds after the call (the negative
branch runs `v.Not(v)`, which stores into `v`) and the 16 bytes returned; `none` is the
panic of `FillBytes` when the magnitude needs more than 16 bytes. -/
def bigIntToDecimal128 (v : Int) : Option (Int × List Byte) :=
  let (v1, sign) : Int × Int := if v < 0 then (bigNot v, -1) else (v, 0)
  match fillBytes v1 16 with
  | none => none
  | some bytes => some (v1, endianSwap bytes (decide (sign < 0)))

/-- The function `int64ToDecimal128(v)`: the low half is `uint64(v)`, the high half
`uint64(sign)` with `sign` 0 or -1, each little-endian. -/
def int64ToDecimal128 (v : Int) : List Byte :=
  let sign : Int := if v < 0 then -1 else 0
  leBytes 8 (uint64 v) ++ leBytes 8 (uint64 sign)

/-- The function `uint64ToDecimal128(v)`: the low half is `v`, the high half stays zero. -/
def uint64ToDecimal128 (v : Int) : List Byte :=
  leBytes 8 (uint64 v) ++ List.replicate 8 0

/-! ## The writers -/

/-- The method `float2int32`: `int32(floating * factors10[d.scale])`. -/
def Decimal.float2int32 (fo : FloatOps) (d : Decimal) (floating : Nat) : Except Error Int :=
  (factors10At d.scale).map (fun p => fo.mulToInt32 floating p)

/-- The method `float2int64`: `int64(floating * factors10[d.scale])`. -/
def Decimal.float2int64 (fo : FloatOps) (d : Decimal) (floating : Nat) : Except Error Int :=
  (factors10At d.scale).map (fun p => fo.mulToInt64 floating p)

/-- The error `errors.New("overflow when narrowing type conversion from .. to ..")`. -/
def overflow (src dst : String) : Except Error (List Byte) :=
  .error (.narrowingOverflow src dst)

/-- The method `write32`: the type switch, case by case, and the `ErrUnexpectedType` after
it.  The result is what the encoder was given. -/
def Decimal.write32 (fo : FloatOps) (d : Decimal) (v : Value) : Except Error (List Byte) :=
  match v with
  | .val (.int8 v) => Encoder.Int32 (int32 v)
  | .val (.int16 v) => Encoder.Int32 (int32 v)
  | .val (.int32 v) => Encoder.Int32 (int32 v)
  | .val (.int64 v) =>
    if v > MaxInt32 ∨ v < MinInt32 then overflow "int64" "int32" else Encoder.Int32 (int32 v)
  | .val (.uint8 v) => Encoder.Int32 (int32 v)
  | .val (.uint16 v) => Encoder.Int32 (int32 v)
  | .val (.uint32 v) =>
    if v > MaxInt32 then overflow "uint32" "int32" else Encoder.Int32 (int32 v)
  | .val (.uint64 v) =>
    if v > MaxInt32 then overflow "uint64" "int32" else Encoder.Int32 (int32 v)
  | .val (.float32 v) => (d.float2int32 fo (fo.widen v)).bind Encoder.Int32
  | .val (.float64 v) => (d.float2int32 fo v).bind Encoder.Int32
  | .ref (.int8 v) => Encoder.Int32 (int32 v)
  | .ref (.int16 v) => Encoder.Int32 (int32 v)
  | .ref (.int32 v) => Encoder.Int32 (int32 v)
  | .ref (.int64 v) =>
    if v > MaxInt32 ∨ v < MinInt32 then overflow "int64" "int32" else Encoder.Int32 (int32 v)
  | .ref (.uint8 v) => Encoder.Int32 (int32 v)
  | .ref (.uint16 v) => Encoder.Int32 (int32 v)
  | .ref (.uint32 v) =>
    if v > MaxInt32 then overflow "uint34" "int32" else Encoder.Int32 (int32 v)
  | .ref (.uint64 v) =>
    if v > MaxInt32 then overflow "uint64" "int32" else Encoder.Int32 (int32 v)
  | .ref (.float32 v) => (d.float2int32 fo (fo.widen v)).bind Encoder.Int32
  | .ref (.float64 v) => (d.float2int32 fo v).bind Encoder.Int32
  | v => .error (.unexpectedType v d)

/-- The method `write64`: the type switch, case by case, and the `ErrUnexpectedType` after
it.  The result is what the encoder was given. -/
def Decimal.write64 (fo : FloatOps) (d : Decimal) (v : Value) : Except Error (List Byte) :=
  match v with
  | .val (.int v) => Encoder.Int64 (int64 v)
  | .val (.int8 v) => Encoder.Int64 (int64 v)
  | .val (.int16 v) => Encoder.Int64 (int64 v)
  | .val (.int32 v) => Encoder.Int64 (int64 v)
  | .val (.int64 v) => Encoder.Int64 (int64 v)
  | .val (.uint8 v) => Encoder.Int64 (int64 v)
  | .val (.uint16 v) => Encoder.Int64 (int64 v)
  | .val (.uint32 v) => Encoder.Int64 (int64 v)
  | .val (.uint64 v) =>
    if v > MaxInt64 then overflow "uint64" "int64" else Encoder.Int64 (int64 v)
  | .val (.float32 v) => (d.float2int64 fo (fo.widen v)).bind Encoder.Int64
  | .val (.float64 v) => (d.float2int64 fo v).bind Encoder.Int64
  | .ref (.int v) => Encoder.Int64 (int64 v)
  | .ref (.int8 v) => Encoder.Int64 (int64 v)
  | .ref (.int16 v) => Encoder.Int64 (int64 v)
  | .ref (.int32 v) => Encoder.Int64 (int64 v)
  | .ref (.int64 v) => Encoder.Int64 (int64 v)
  | .ref (.uint8 v) => Encoder.Int64 (int64 v)
  | .ref (.uint16 v) => Encoder.Int64 (int64 v)
  | .ref (.uint32 v) => Encoder.Int64 (int64 v)
  | .ref (.uint64 v) =>
    if v > MaxInt64 then overflow "uint64" "int64" else Encoder.Int64 (int64 v)
  | .ref (.float32 v) => (d.float2int64 fo (fo.widen v)).bind Encoder.Int64
  | .ref (.float64 v) => (d.float2int64 fo v).bind Encoder.Int64
  | v => .error (.unexpectedType v d)

/-- The method `write128`: the type switch, case by case, and the `ErrUnexpectedType`
after it.  The result is what the encoder was given. -/
def Decimal.write128 (fo : FloatOps) (d : Decimal) (v : Value) : Except Error (List Byte) :=
  match v with
  | .val (.int v) => Encoder.Decimal128 (int64ToDecimal128 (int64 v))
  | .val (.int8 v) => Encoder.Decimal128 (int64ToDecimal128 (int64 v))
  | .val (.int16 v) => Encoder.Decimal128 (int64ToDecimal128 (int64 v))
  | .val (.int32 v) => Encoder.Decimal128 (int64ToDecimal128 (int64 v))
  | .val (.int64 v) => Encoder.Decimal128 (int64ToDecimal128 v)
  | .val (.uint8 v) => Encoder.Decimal128 (uint64ToDecimal128 (uint64 v))
  | .val (.uint16 v) => Encoder.Decimal128 (uint64ToDecimal128 (uint64 v))
  | .val (.uint32 v) => Encoder.Decimal128 (uint64ToDecimal128 (uint64 v))
  | .val (.uint64 v) => Encoder.Decimal128 (uint64ToDecimal128 v)
  | .val (.float32 v) =>
    (d.float2int64 fo (fo.widen v)).bind (fun fixed => Encoder.Decimal128 (int64ToDecimal128 fixed))
  | .val (.float64 v) =>
    (d.float2int64 fo v).bind (fun fixed => Encoder.Decimal128 (int64ToDecimal128 fixed))
  | .val (.bytes v) =>
    if v.length ≠ 16 then .error .expected16Bytes else Encoder.Decimal128 v
  | .ref (.int v) => Encoder.Decimal128 (int64ToDecimal128 (int64 v))
  | .ref (.int8 v) => Encoder.Decimal128 (int64ToDecimal128 (int64 v))
  | .ref (.int16 v) => Encoder.Decimal128 (int64ToDecimal128 (int64 v))
  | .ref (.int32 v) => Encoder.Decimal128 (int64ToDecimal128 (int64 v))
  | .ref (.int64 v) => Encoder.Decimal128 (int64ToDecimal128 v)
  | .ref (.uint8 v) => Encoder.Decimal128 (uint64ToDecimal128 (uint64 v))
  | .ref (.uint16 v) => Encoder.Decimal128 (uint64ToDecimal128 (uint64 v))
  | .ref (.uint32 v) => Encoder.Decimal128 (uint64ToDecimal128 (uint64 v))
  | .ref (.uint64 v) => Encoder.Decimal128 (uint64ToDecimal128 v)
  | .ref (.float32 v) =>
    (d.float2int64 fo (fo.widen v)).bind (fun fixed => Encoder.Decimal128 (int64ToDecimal128 fixed))
  | .ref (.float64 v) =>
    (d.float2int64 fo v).bind (fun fixed => Encoder.Decimal128 (int64ToDecimal128 fixed))
  | .ref (.bytes v) =>
    if v.length ≠ 16 then .error .expected16Bytes else Encoder.Decimal128 v
  | v => .error (.unexpectedType v d)

/-- The method `parseShopSpringDecimalValue`: `nil` for a nil reference, the `int` 0 for a
decimal equal to zero, otherwise the decimal re-expressed through
`NewFromBigInt(Coefficient, Exponent + int32(scale))` unless `Exponent == scale`, as an
`int64` (`IntPart`) on widths 32 and 64 and as the 16 bytes of `bigIntToDecimal128` on
width 128; `nil` on any other width. -/
def Decimal.parseShopSpringDecimalValue (d : Decimal) (dec : Option sdecimal.Decimal) :
    Except Error Value :=
  match dec with
  | none => .ok .nil
  | some dec =>
    if sdecimal.Zero.Equal dec then .ok (.val (.int 0))
    else if d.nobits = 32 ∨ d.nobits = 64 then
      if dec.Exponent ≠ d.scale then
        let nv := sdecimal.NewFromBigInt dec.Coefficient (int32 (dec.Exponent + int32 d.scale))
        .ok (.val (.int64 nv.IntPart))
      else
        .ok (.val (.int64 dec.IntPart))
    else if d.nobits = 128 then
      let tmp : Int :=
        if dec.Exponent ≠ d.scale then
          (sdecimal.NewFromBigInt dec.Coefficient (int32 (dec.Exponent + int32 d.scale))).BigInt
        else
          dec.BigInt
      match bigIntToDecimal128 tmp with
      | none => .error (.panic "FillBytes: buffer too small")
      | some (_, bytes) => .ok (.val (.bytes bytes))
    else .ok .nil

/-- The first switch of `Write`: decimals and strings, and the references to them, go
through `parseShopSpringDecimalValue`; every other value is passed on as it is. -/
def Decimal.normalize (d : Decimal) (v : Value) : Except Error Value :=
  match v with
  | .ref (.decimal x) => d.parseShopSpringDecimalValue (some x)
  | .nilDecimalRef => d.parseShopSpringDecimalValue none
  | .val (.decimal x) => d.parseShopSpringDecimalValue (some x)
  | .val (.string s) =>
    match sdecimal.NewFromString s with
    | none => .error .newFromString
    | some sdv => d.parseShopSpringDecimalValue (some sdv)
  | .ref (.string s) =>
    match sdecimal.NewFromString s with
    | none => .error .newFromString
    | some sdv => d.parseShopSpringDecimalValue (some sdv)
  | v => .ok v

/-- The method `Write`: the bytes handed to the encoder, or how the call fails. -/
def Decimal.Write (fo : FloatOps) (d : Decimal) (v : Value) : Except Error (List Byte) :=
  match d.normalize v with
  | .error e => .error e
  | .ok wv =>
    if d.nobits = 32 then d.write32 fo wv
    else if d.nobits = 64 then d.write64 fo wv
    else if d.nobits = 128 then d.write128 fo wv
    else .error .unachievable

/-- The method `Read` on the bytes the decoder holds: the string returned, or how the call
fails. -/
def Decimal.Read (d : Decimal) (input : List Byte) : Except Error String :=
  if d.nobits = 32 then
    match Decoder.UInt32 input with
    | .error e => .error e
    | .ok v => .ok (sdecimal.New (int64 v) (int32 (-d.scale))).String
  else if d.nobits = 64 then
    match Decoder.Int64 input with
    | .error e => .error e
    | .ok v => .ok (sdecimal.New v (int32 (-d.scale))).String
  else if d.nobits = 128 then
    match Decoder.Decimal128 input with
    | .error e => .error e
    | .ok db =>
      match decimal128ToBigInt db with
      | .error e => .error e
      | .ok (bi, _) => .ok (sdecimal.NewFromBigInt bi (int32 (-d.scale))).String
  else .error .unachievable

/-! ## The descriptor parser -/

/-- The byte length `len(s)` of a Go string holding the text `s` in UTF-8. -/
def byteLen (s : List Char) : Nat := (s.map Char.utf8Size).sum

/-- The predicate `unicode.IsSpace`. -/
def isSpace (c : Char) : Bool :=
  [0x09, 0x0a, 0x0b, 0x0c, 0x0d, 0x20, 0x85, 0xa0, 0x1680, 0x2028, 0x2029, 0x202f, 0x205f,
    0x3000].contains c.toNat || (0x2000 ≤ c.toNat && c.toNat ≤ 0x200a)

/-- The function `strings.TrimSpace`. -/
def TrimSpace (s : List Char) : List Char :=
  ((s.dropWhile isSpace).reverse.dropWhile isSpace).reverse

/-- The function `strconv.Atoi`: an optionally signed run of decimal digits whose value
fits the 64-bit `int`; `none` is its error. -/
def Atoi (s : List Char) : Option Int :=
  (sdecimal.parseSigned s).filter (fun x => decide (MinInt64 ≤ x ∧ x ≤ MaxInt64))

/-- The function `parseDecimal(name, chType)`.  The first switch falls through from each
case to the error, so it fails when any of its four conditions holds; `chType[7]` and the
last byte are ASCII tests, which on UTF-8 text are tests of the eighth and the last
character.  The fields are `strings.Split(chType[8:len(chType)-1], ",")`. -/
def parseDecimal (name chType : String) : Except Error Decimal :=
  let cs := chType.data
  if byteLen cs < 12 ∨ ¬ "Decimal".data.isPrefixOf cs ∨ cs.getD 7 ' ' ≠ '(' ∨
      cs.getLast? ≠ some ')' then
    .error (.invalidFormat chType)
  else
    let params := ((cs.drop 8).dropLast).splitOn ','
    if params.length ≠ 2 then .error (.invalidFormat chType)
    else
      let p0 := TrimSpace (params.getD 0 [])
      let p1 := TrimSpace (params.getD 1 [])
      match Atoi p0 with
      | none => .error (.notDecimalType chType)
      | some precision =>
        if precision < 1 then .error .wrongPrecision
        else
          match Atoi p1 with
          | none => .error (.notDecimalType chType)
          | some scale =>
            if scale < 0 ∨ scale > precision then .error .wrongScale
            else if precision ≤ 9 then .ok ⟨name, chType, 32, precision, scale⟩
            else if precision ≤ 18 then .ok ⟨name, chType, 64, precision, scale⟩
            else if precision ≤ 38 then .ok ⟨name, chType, 128, precision, scale⟩
            else .error .precisionExceeds

/-! ## Vocabulary of the statements -/

instance Scalar.decInRange (s : Scalar) : Decidable s.inRange := by
  cases s <;> unfold Scalar.inRange <;> infer_instance

/-- Whether an argument holds a payload in the range of its Go type. -/
def Value.inRange : Value → Prop
  | .val s => s.inRange
  | .ref s => s.inRange
  | _ => True

instance Value.decInRange (v : Value) : Decidable v.inRange := by
  cases v <;> unfold Value.inRange <;> infer_instance

/-- The numeric value of an argument of one of the native integer types `write32` has a
case for: `int8` to `int64`, `uint8` to `uint64`, and the references to them. -/
def Value.write32Integer : Value → Option Int
  | .val (.int8 v) | .val (.int16 v) | .val (.int32 v) | .val (.int64 v)
  | .val (.uint8 v) | .val (.uint16 v) | .val (.uint32 v) | .val (.uint64 v)
  | .ref (.int8 v) | .ref (.int16 v) | .ref (.int32 v) | .ref (.int64 v)
  | .ref (.uint8 v) | .ref (.uint16 v) | .ref (.uint32 v) | .ref (.uint64 v) => some v
  | _ => none

/-- The numeric value of an argument of one of the native integer types `write64` has a
case for: `int`, `int8` to `int64`, `uint8` to `uint64`, and the references to them. -/
def Value.write64Integer : Value → Option Int
  | .val (.int v) | .val (.int8 v) | .val (.int16 v) | .val (.int32 v) | .val (.int64 v)
  | .val (.uint8 v) | .val (.uint16 v) | .val (.uint32 v) | .val (.uint64 v)
  | .ref (.int v) | .ref (.int8 v) | .ref (.int16 v) | .ref (.int32 v) | .ref (.int64 v)
  | .ref (.uint8 v) | .ref (.uint16 v) | .ref (.uint32 v) | .ref (.uint64 v) => some v
  | _ => none

/-- The integer part, truncated toward zero, of `c * 10 ^ (e + scale)`: the coefficient of
the decimal `c * 10 ^ e` re-expressed at exponent `-scale`. -/
def coefficientAt (c e scale : Int) : Int :=
  if 0 ≤ e + scale then c * 10 ^ (e + scale).toNat
  else Int.tdiv c (10 ^ (-(e + scale)).toNat)

/-- The descriptor text `Decimal(p,s)`, with `p` and `s` written in plain base-10 digits
(a leading `-` for a negative number). -/
def descriptor (p s : Int) : String :=
  String.mk (['D', 'e', 'c', 'i', 'm', 'a', 'l', '('] ++ bigIntString p ++
    ',' :: bigIntString s ++ [')'])

/-- The three syntax faults of a descriptor text: it lacks the prefix `Decimal(`, it does
not end with `)`, or the text between the two does not consist of exactly two
comma-separated fields. -/
def syntaxFault (chType : String) : Prop :=
  ¬ ['D', 'e', 'c', 'i', 'm', 'a', 'l', '('].isPrefixOf chType.data = true ∨
    chType.data.getLast? ≠ some ')' ∨
    (((chType.data.drop 8).dropLast).splitOn ',').length ≠ 2

instance syntaxFault.dec (chType : String) : Decidable (syntaxFault chType) := by
  unfold syntaxFault; infer_instance

/-- How `Write` treats the type of an argument on a column of a given width. -/
inductive Support
  | accepted
  | rejected
  | leftOut
  deriving DecidableEq, Repr

/-- The types `Write` accepts and rejects, width by width.  Accepted everywhere: `int8` to
`int64`, `uint8` to `uint64`, `float32`, `float64`, decimals and strings; `int` on the
widths 64 and 128; a byte buffer on width 128.  Rejected: `uint`, a byte buffer on the
widths 32 and 64, the untyped `nil`, and any type no case names.  Left out: `int` and a
decimal or string equal to zero on width 32, and a nil decimal reference. -/
def supportOn (nobits : Int) : Value → Support
  | .nil => .rejected
  | .nilDecimalRef => .leftOut
  | .val s | .ref s =>
    match s with
    | .int _ => if nobits = 32 then .leftOut else .accepted
    | .uint _ => .rejected
    | .bool _ => .rejected
    | .bytes _ => if nobits = 128 then .accepted else .rejected
    | .decimal x => if sdecimal.Zero.Equal x = true ∧ nobits = 32 then .leftOut else .accepted
    | .string t =>
      match sdecimal.NewFromString t with
      | none => .accepted
      | some x => if sdecimal.Zero.Equal x = true ∧ nobits = 32 then .leftOut else .accepted
    | _ => .accepted

/-- The `n` low-order decimal digits of `m`, most significant first. -/
def fixedDigits : Nat → Nat → List Char
  | 0, _ => []
  | n + 1, m => fixedDigits n (m / 10) ++ [(m % 10).digitChar]

/-- The canonical base-10 form of `v * 10 ^ (-scale)`: a leading `-` for a negative
value, the integer part `|v| / 10 ^ scale` without leading zeros (a single `0` when it is
zero), the point, and the `scale` digits of the fraction; with `trim` the trailing zeros of
the fraction are dropped, and the point with them when no digit is left. -/
def canonicalFixed (v : Int) (scale : Nat) (trim : Bool) : List Char :=
  let intPart := Nat.toDigits 10 (v.natAbs / 10 ^ scale)
  let fraction := fixedDigits scale v.natAbs
  let fraction :=
    if trim then (fraction.reverse.dropWhile (fun c => c == '0')).reverse else fraction
  let number := if fraction = [] then intPart else intPart ++ '.' :: fraction
  if v < 0 then '-' :: number else number

/-- The wire value of the integer `v` on a column `nobits` wide: the `nobits / 8`
little-endian bytes of `v` in two's complement. -/
def wire (nobits : Int) (v : Int) : List Byte :=
  leBytes (nobits / 8).toNat (v % 2 ^ nobits.toNat).toNat

/-- The decimal `dec`, its exponent an `int32`, has the integer value `n`:
`dec.value * 10 ^ dec.exp = n`. -/
def denotesInt (dec : sdecimal.Decimal) (n : Int) : Prop :=
  MinInt32 ≤ dec.exp ∧ dec.exp ≤ MaxInt32 ∧
    if 0 ≤ dec.exp then dec.value * 10 ^ dec.exp.toNat = n
    else dec.value = n * 10 ^ (-dec.exp).toNat

instance denotesInt.dec (dec : sdecimal.Decimal) (n : Int) : Decidable (denotesInt dec n) :=
  inferInstanceAs (Decidable (MinInt32 ≤ dec.exp ∧ dec.exp ≤ MaxInt32 ∧
    if 0 ≤ dec.exp then dec.value * 10 ^ dec.exp.toNat = n
    else dec.value = n * 10 ^ (-dec.exp).toNat))

/-- The decimal a decimal or string argument of `Write`, or a reference to one, is read
as; a string is read by `sdecimal.NewFromString`, as `Write` reads it. -/
def Value.asDecimal : Value → Option sdecimal.Decimal
  | .val (.decimal dec) => some dec
  | .ref (.decimal dec) => some dec
  | .val (.string s) => sdecimal.NewFromString s
  | .ref (.string s) => sdecimal.NewFromString s
  | _ => none

/-- A decimal or string argument of `Write`, or a reference to one, of the integer value
`n`. -/
def Value.equalValued (x : Value) (n : Int) : Prop :=
  match x.asDecimal with
  | some dec => denotesInt dec n
  | none => False

instance Value.equalValued.dec (x : Value) (n : Int) : Decidable (x.equalValued n) := by
  show Decidable (match x.asDecimal with
    | some dec => denotesInt dec n
    | none => False)
  cases x.asDecimal <;> dsimp only <;> infer_instance

/-! ## Lemmas on bytes and the transcoder -/

theorem length16_cases {l : List Byte} (h : l.length = 16) :
    ∃ a0 a1 a2 a3 a4 a5 a6 a7 a8 a9 a10 a11 a12 a13 a14 a15 : Byte,
      l = [a0, a1, a2, a3, a4, a5, a6, a7, a8, a9, a10, a11, a12, a13, a14, a15] := by
  match l, h with
  | [a0, a1, a2, a3, a4, a5, a6, a7, a8, a9, a10, a11, a12, a13, a14, a15], _ =>
    exact ⟨a0, a1, a2, a3, a4, a5, a6, a7, a8, a9, a10, a11, a12, a13, a14, a15, rfl⟩

theorem endianSwap_false16 {l : List Byte} (h : l.length = 16) :
    endianSwap l false = l.reverse := by
  obtain ⟨a0, a1, a2, a3, a4, a5, a6, a7, a8, a9, a10, a11, a12, a13, a14, a15, rfl⟩ :=
    length16_cases h
  simp [endianSwap, endianSwapStep, List.range_succ]

theorem endianSwap_true16 {l : List Byte} (h : l.length = 16) :
    endianSwap l true = (l.map bnot).reverse := by
  obtain ⟨a0, a1, a2, a3, a4, a5, a6, a7, a8, a9, a10, a11, a12, a13, a14, a15, rfl⟩ :=
    length16_cases h
  simp [endianSwap, endianSwapStep, List.range_succ]

theorem setBytes_append (bs : List Byte) (b : Byte) :
    setBytes (bs ++ [b]) = setBytes bs * 256 + b.val := by
  simp [setBytes, List.foldl_append]

theorem setBytes_reverse (bs : List Byte) : setBytes bs.reverse = leValue bs := by
  induction bs with
  | nil => rfl
  | cons b bs ih => rw [List.reverse_cons, setBytes_append, ih, leValue]; ring

theorem leBytes_length (n x : Nat) : (leBytes n x).length = n := by
  induction n generalizing x with
  | zero => rfl
  | succ n ih => simp [leBytes, ih]

theorem leValue_leBytes (n x : Nat) : leValue (leBytes n x) = x % 256 ^ n := by
  induction n generalizing x with
  | zero => simp [leBytes, leValue, Nat.mod_one]
  | succ n ih =>
    simp only [leBytes, leValue, ih]
    rw [pow_succ, Nat.mul_comm (256 ^ n) 256, Nat.mod_mul]

theorem leValue_lt (bs : List Byte) : leValue bs < 256 ^ bs.length := by
  induction bs with
  | nil => simp [leValue]
  | cons b bs ih =>
    have hb := b.isLt
    simp only [leValue, List.length_cons, pow_succ]
    omega

theorem leValue_map_bnot (bs : List Byte) :
    leValue (bs.map bnot) + leValue bs + 1 = 256 ^ bs.length := by
  induction bs with
  | nil => simp [leValue]
  | cons b bs ih =>
    have hb := b.isLt
    simp only [List.map_cons, leValue, List.length_cons, pow_succ, bnot]
    omega

theorem leBytes_leValue (bs : List Byte) : leBytes bs.length (leValue bs) = bs := by
  induction bs with
  | nil => rfl
  | cons b bs ih =>
    have hb := b.isLt
    have h1 : (b.val + 256 * leValue bs) % 256 = b.val := by omega
    have h2 : (b.val + 256 * leValue bs) / 256 = leValue bs := by omega
    simp only [List.length_cons, leValue, leBytes, h1, h2, ih]

set_option maxRecDepth 100000 in
theorem topBit_iff (b : Byte) : (b.val &&& 0x80 ≠ 0) ↔ 128 ≤ b.val := by
  revert b; decide

/-- The top byte of a 16-byte buffer carries the sign: it is at least 128 exactly when the
little-endian value reaches `2 ^ 127`. -/
theorem top_byte_iff {b : List Byte} (h : b.length = 16) :
    128 ≤ (b.getD 15 0).val ↔ 2 ^ 127 ≤ leValue b := by
  obtain ⟨a0, a1, a2, a3, a4, a5, a6, a7, a8, a9, a10, a11, a12, a13, a14, a15, rfl⟩ :=
    length16_cases h
  have h0 := a0.isLt; have h1 := a1.isLt; have h2 := a2.isLt; have h3 := a3.isLt
  have h4 := a4.isLt; have h5 := a5.isLt; have h6 := a6.isLt; have h7 := a7.isLt
  have h8 := a8.isLt; have h9 := a9.isLt; have h10 := a10.isLt; have h11 := a11.isLt
  have h12 := a12.isLt; have h13 := a13.isLt; have h14 := a14.isLt
  simp only [leValue, List.getD_cons_succ, List.getD_cons_zero]
  omega

theorem leValue_eq_sum {b : List Byte} (h : b.length = 16) :
    leValue b = (Finset.range 16).sum (fun i => (b.getD i 0).val * 256 ^ i) := by
  obtain ⟨a0, a1, a2, a3, a4, a5, a6, a7, a8, a9, a10, a11, a12, a13, a14, a15, rfl⟩ :=
    length16_cases h
  simp [Finset.sum_range_succ, leValue]
  ring

theorem decimal128ToBigInt_value {b : List Byte} (h : b.length = 16) :
    (decimal128ToBigInt b).map Prod.fst =
      .ok (if 2 ^ 127 ≤ leValue b then (leValue b : Int) - 2 ^ 128 else (leValue b : Int)) := by
  have hrev : (b.reverse).getD 0 0 = b.getD 15 0 := by
    obtain ⟨a0, a1, a2, a3, a4, a5, a6, a7, a8, a9, a10, a11, a12, a13, a14, a15, rfl⟩ :=
      length16_cases h
    simp
  have hm := leValue_map_bnot b
  rw [h] at hm
  have h16 : (0 : Nat) < 16 := by decide
  simp only [decimal128ToBigInt, h, ne_eq, not_true_eq_false, if_false, endianSwap_false16 h,
    List.length_reverse, hrev, topBit_iff, top_byte_iff h]
  by_cases hb : 2 ^ 127 ≤ leValue b
  · have hs : setBytes (List.map bnot b.reverse) = leValue (List.map bnot b) := by
      rw [List.map_reverse, setBytes_reverse]
    have hv : -(leValue (List.map bnot b) : Int) - 1 = (leValue b : Int) - 2 ^ 128 := by omega
    rw [if_pos ⟨h16, hb⟩, if_pos hb]
    show Except.ok (bigNot (setBytes (List.map bnot b.reverse))) = _
    rw [hs, bigNot, hv]
  · rw [if_neg (fun hh => hb hh.2), if_neg hb]
    show Except.ok ((setBytes b.reverse : Nat) : Int) = _
    rw [setBytes_reverse]

theorem fillBytes_of_lt {x : Int} {n : Nat} (h : x.natAbs < 256 ^ n) :
    fillBytes x n = some (leBytes n x.natAbs).reverse := by
  unfold fillBytes
  rw [if_pos h]

theorem bigIntToDecimal128_neg {x : Int} (hx : x < 0) :
    bigIntToDecimal128 x =
      (fillBytes (bigNot x) 16).map (fun bytes => (bigNot x, endianSwap bytes true)) := by
  unfold bigIntToDecimal128
  rw [if_pos hx]
  dsimp only
  cases fillBytes (bigNot x) 16 <;> rfl

theorem bigIntToDecimal128_nonneg {x : Int} (hx : ¬ x < 0) :
    bigIntToDecimal128 x =
      (fillBytes x 16).map (fun bytes => (x, endianSwap bytes false)) := by
  unfold bigIntToDecimal128
  rw [if_neg hx]
  dsimp only
  cases fillBytes x 16 <;> rfl

set_option maxRecDepth 8000 in
/-- What `bigIntToDecimal128` returns for an argument of 128-bit magnitude: the 16
little-endian bytes of the argument modulo `2 ^ 128`. -/
theorem bigIntToDecimal128_bytes (x : Int) (hlo : -(2 ^ 128) ≤ x) (hhi : x < 2 ^ 128) :
    (bigIntToDecimal128 x).map Prod.snd = some (leBytes 16 (x % 2 ^ 128).toNat) := by
  by_cases hx : x < 0
  · have hfit : (bigNot x).natAbs < 256 ^ 16 := by unfold bigNot; omega
    have hlen : ((leBytes 16 (bigNot x).natAbs).reverse).length = 16 := by
      rw [List.length_reverse, leBytes_length]
    have h1 := leBytes_leValue (List.map bnot (leBytes 16 (bigNot x).natAbs))
    have h2 := leValue_map_bnot (leBytes 16 (bigNot x).natAbs)
    rw [List.length_map, leBytes_length] at h1
    rw [leBytes_length, leValue_leBytes, Nat.mod_eq_of_lt hfit] at h2
    have hval : (x % 2 ^ 128).toNat = leValue (List.map bnot (leBytes 16 (bigNot x).natAbs)) := by
      unfold bigNot at h2 ⊢; omega
    rw [bigIntToDecimal128_neg hx, fillBytes_of_lt hfit, Option.map_some', Option.map_some',
      endianSwap_true16 hlen, List.map_reverse, List.reverse_reverse, hval, h1]
  · have hfit : x.natAbs < 256 ^ 16 := by omega
    have hlen : ((leBytes 16 x.natAbs).reverse).length = 16 := by
      rw [List.length_reverse, leBytes_length]
    have hval : (x % 2 ^ 128).toNat = x.natAbs := by omega
    rw [bigIntToDecimal128_nonneg hx, fillBytes_of_lt hfit, Option.map_some', Option.map_some',
      endianSwap_false16 hlen, List.reverse_reverse, hval]

set_option maxRecDepth 8000 in
/-- C1: for every integer x in [-(2^127), 2^127 - 1], bigIntToDecimal128 returns 16
bytes and decimal128ToBigInt applied to them succeeds with exactly x. -/
theorem C1_transcoder_roundtrip (x : Int) (hlo : -(2 ^ 127) ≤ x) (hhi : x ≤ 2 ^ 127 - 1) :
    ∃ bytes : List Byte,
      (bigIntToDecimal128 x).map Prod.snd = some bytes ∧ bytes.length = 16 ∧
        (decimal128ToBigInt bytes).map Prod.fst = .ok x := by
  refine ⟨leBytes 16 (x % 2 ^ 128).toNat, bigIntToDecimal128_bytes x (by omega) (by omega),
    leBytes_length _ _, ?_⟩
  rw [decimal128ToBigInt_value (leBytes_length _ _), leValue_leBytes]
  have hmod : (x % 2 ^ 128).toNat % 256 ^ 16 = (x % 2 ^ 128).toNat := by omega
  rw [hmod]
  by_cases hx : x < 0
  · have h1 : 2 ^ 127 ≤ (x % 2 ^ 128).toNat := by omega
    rw [if_pos h1]
    congr 1
    omega
  · have h1 : ¬ 2 ^ 127 ≤ (x % 2 ^ 128).toNat := by omega
    rw [if_neg h1]
    congr 1
    omega

/-- The witness of C1 at the least Decimal(38,0) value. -/
theorem C1_transcoder_roundtrip_witness :
    ∃ bytes : List Byte,
      (bigIntToDecimal128 (-99999999999999999999999999999999999999)).map Prod.snd = some bytes ∧
        bytes.length = 16 ∧
        (decimal128ToBigInt bytes).map Prod.fst = .ok (-99999999999999999999999999999999999999) :=
  C1_transcoder_roundtrip (-99999999999999999999999999999999999999) (by norm_num) (by norm_num)

/-- C2: bigIntToDecimal128 of the least Decimal(38,0) value is the byte sequence
01 00 00 00 c0 dd 75 f6 85 3b 79 a5 57 b3 c4 b4, and of the greatest it is
ff ff ff ff 3f 22 8a 09 7a c4 86 5a a8 4c 3b 4b. -/
theorem C2_boundary_bytes :
    (bigIntToDecimal128 (-99999999999999999999999999999999999999)).map Prod.snd =
        some [0x01, 0x00, 0x00, 0x00, 0xc0, 0xdd, 0x75, 0xf6, 0x85, 0x3b, 0x79, 0xa5, 0x57, 0xb3,
          0xc4, 0xb4] ∧
      (bigIntToDecimal128 99999999999999999999999999999999999999).map Prod.snd =
        some [0xff, 0xff, 0xff, 0xff, 0x3f, 0x22, 0x8a, 0x09, 0x7a, 0xc4, 0x86, 0x5a, 0xa8, 0x4c,
          0x3b, 0x4b] := by
  constructor <;> decide

/-- C3: decimal128ToBigInt fails on a slice whose length is not 16, and on 16 bytes it
returns the little-endian two-complement value: the sum of b[i] * 256^i, less 2^128 when
the top bit of b[15] is set; the bytes of getMinDecimal128Bytes decode to -(10^38 - 1). -/
theorem C3_decode_twos_complement (b : List Byte) :
    (decimal128ToBigInt b).map Prod.fst =
        (if b.length ≠ 16 then .error .expected16Bytes
         else if 128 ≤ (b.getD 15 0).val then
           .ok (((Finset.range 16).sum (fun i => (b.getD i 0).val * 256 ^ i) : Nat) - 2 ^ 128 : Int)
         else
           .ok (((Finset.range 16).sum (fun i => (b.getD i 0).val * 256 ^ i) : Nat) : Int)) ∧
      (decimal128ToBigInt [0x01, 0x00, 0x00, 0x00, 0xc0, 0xdd, 0x75, 0xf6, 0x85, 0x3b, 0x79, 0xa5,
          0x57, 0xb3, 0xc4, 0xb4]).map Prod.fst = .ok (-(10 ^ 38 - 1)) := by
  refine ⟨?_, by rfl⟩
  by_cases h : b.length = 16
  · rw [if_neg (not_not.mpr h), decimal128ToBigInt_value h, ← leValue_eq_sum h]
    by_cases ht : 128 ≤ (b.getD 15 0).val
    · rw [if_pos ht, if_pos ((top_byte_iff h).mp ht)]
    · rw [if_neg ht, if_neg (fun hh => ht ((top_byte_iff h).mpr hh))]
  · rw [if_pos h]
    unfold decimal128ToBigInt
    rw [if_pos h]
    rfl

theorem leValue_append (xs ys : List Byte) :
    leValue (xs ++ ys) = leValue xs + 256 ^ xs.length * leValue ys := by
  induction xs with
  | nil => simp [leValue]
  | cons x xs ih =>
    rw [List.cons_append, leValue, ih, leValue, List.length_cons, pow_succ]; ring

theorem bigIntString_eq_toString (x : Int) : String.mk (bigIntString x) = toString x := by
  cases x with
  | ofNat n =>
    have h : ¬ (Int.ofNat n < 0) := by simp
    simp only [bigIntString, h, if_false]
    rfl
  | negSucc n =>
    have h : Int.negSucc n < 0 := Int.negSucc_lt_zero n
    simp only [bigIntString, h, if_true]
    rfl

set_option maxRecDepth 8000 in
theorem decode_int64ToDecimal128 (v : Int) (hlo : MinInt64 ≤ v) (hhi : v ≤ MaxInt64) :
    (decimal128ToBigInt (int64ToDecimal128 v)).map Prod.fst = .ok v := by
  unfold MinInt64 at hlo
  unfold MaxInt64 at hhi
  have hlen : (int64ToDecimal128 v).length = 16 := by
    simp [int64ToDecimal128, leBytes_length]
  have hval : leValue (int64ToDecimal128 v) = (v % 2 ^ 128).toNat := by
    unfold int64ToDecimal128
    rw [leValue_append, leBytes_length, leValue_leBytes, leValue_leBytes]
    unfold uint64
    by_cases hv : v < 0
    · rw [if_pos hv]; omega
    · rw [if_neg hv]; omega
  rw [decimal128ToBigInt_value hlen, hval]
  by_cases hv : v < 0
  · have h1 : 2 ^ 127 ≤ (v % 2 ^ 128).toNat := by omega
    have h2 : ((v % 2 ^ 128).toNat : Int) - 2 ^ 128 = v := by omega
    rw [if_pos h1, h2]
  · have h1 : ¬ 2 ^ 127 ≤ (v % 2 ^ 128).toNat := by omega
    have h2 : ((v % 2 ^ 128).toNat : Int) = v := by omega
    rw [if_neg h1, h2]

theorem map_fst_ok {b : List Byte} {x : Int}
    (h : (decimal128ToBigInt b).map Prod.fst = .ok x) :
    ∃ buf, decimal128ToBigInt b = .ok (x, buf) := by
  cases hd : decimal128ToBigInt b with
  | error e => rw [hd] at h; cases h
  | ok p =>
    rw [hd] at h
    obtain ⟨a, buf⟩ := p
    have : a = x := by
      have h' : (Except.ok a : Except Error Int) = Except.ok x := h
      exact Except.ok.inj h'
    exact ⟨buf, by rw [this]⟩

theorem String_exp_zero (v : Int) : (sdecimal.NewFromBigInt v 0).String = toString v := by
  rw [← bigIntString_eq_toString]
  simp [sdecimal.Decimal.String, sdecimal.Decimal.string, sdecimal.NewFromBigInt,
    sdecimal.Decimal.rescale]

/-- C4: for every 64-bit signed integer v, a width-128 column writes int64ToDecimal128(v)
for the native input v, these 16 bytes decode through decimal128ToBigInt to exactly v, and
at scale 0 Read returns the base-10 string of v. -/
theorem C4_int64_roundtrip (fo : FloatOps) (d : Decimal) (v : Int)
    (hw : d.nobits = 128) (hs : d.scale = 0) (hlo : MinInt64 ≤ v) (hhi : v ≤ MaxInt64) :
    d.Write fo (.val (.int64 v)) = .ok (int64ToDecimal128 v) ∧
      (decimal128ToBigInt (int64ToDecimal128 v)).map Prod.fst = .ok v ∧
      d.Read (int64ToDecimal128 v) = .ok (toString v) := by
  have hdec := decode_int64ToDecimal128 v hlo hhi
  have hlen : (int64ToDecimal128 v).length = 16 := by
    simp [int64ToDecimal128, leBytes_length]
  obtain ⟨buf, hbuf⟩ := map_fst_ok hdec
  refine ⟨?_, hdec, ?_⟩
  · simp [Decimal.Write, Decimal.normalize, Decimal.write128, Encoder.Decimal128, hw]
  · have h0 : int32 0 = 0 := by decide
    have htake : (int64ToDecimal128 v).take 16 = int64ToDecimal128 v :=
      List.take_of_length_le (by omega)
    simp [Decimal.Read, hw, hs, Decoder.Decimal128, hlen, htake, hbuf, h0, String_exp_zero]

/-- The witness of C4: `math.MinInt64` on a `Decimal(38,0)` column. -/
theorem C4_int64_roundtrip_witness :
    (Decimal.mk "decimal" "Decimal(38,0)" 128 38 0).Write ⟨id, fun _ _ => 0, fun _ _ => 0⟩
        (.val (.int64 (-9223372036854775808))) = .ok (int64ToDecimal128 (-9223372036854775808)) ∧
      (decimal128ToBigInt (int64ToDecimal128 (-9223372036854775808))).map Prod.fst =
        .ok (-9223372036854775808) ∧
      (Decimal.mk "decimal" "Decimal(38,0)" 128 38 0).Read
        (int64ToDecimal128 (-9223372036854775808)) = .ok (toString (-9223372036854775808 : Int)) :=
  C4_int64_roundtrip ⟨id, fun _ _ => 0, fun _ _ => 0⟩ (Decimal.mk "decimal" "Decimal(38,0)" 128 38 0)
    (-9223372036854775808) rfl rfl (by decide) (by decide)

theorem int64_of_inRange {v : Int} (hlo : MinInt64 ≤ v) (hhi : v ≤ MaxInt64) : int64 v = v := by
  unfold MinInt64 at hlo
  unfold MaxInt64 at hhi
  unfold int64
  omega

theorem int32_of_inRange {v : Int} (hlo : MinInt32 ≤ v) (hhi : v ≤ MaxInt32) : int32 v = v := by
  unfold MinInt32 at hlo
  unfold MaxInt32 at hhi
  unfold int32
  omega

theorem Decoder_Int64_leBytes (v : Int) (hlo : MinInt64 ≤ v) (hhi : v ≤ MaxInt64) :
    Decoder.Int64 (leBytes 8 (uint64 v)) = .ok v := by
  unfold MinInt64 at hlo
  unfold MaxInt64 at hhi
  have hlen : ¬ (leBytes 8 (uint64 v)).length < 8 := by rw [leBytes_length]; omega
  have htake : (leBytes 8 (uint64 v)).take 8 = leBytes 8 (uint64 v) :=
    List.take_of_length_le (by rw [leBytes_length])
  have hv : int64 ((uint64 v % 256 ^ 8 : Nat) : Int) = v := by
    unfold int64 uint64
    omega
  unfold Decoder.Int64
  rw [if_neg hlen, htake, leValue_leBytes, hv]

theorem Decoder_UInt32_leBytes (v : Int) :
    Decoder.UInt32 (leBytes 4 (uint32 v)) = .ok (uint32 v) := by
  have hlen : ¬ (leBytes 4 (uint32 v)).length < 4 := by rw [leBytes_length]; omega
  have htake : (leBytes 4 (uint32 v)).take 4 = leBytes 4 (uint32 v) :=
    List.take_of_length_le (by rw [leBytes_length])
  have hv : uint32 v % 256 ^ 4 = uint32 v := by
    unfold uint32
    omega
  unfold Decoder.UInt32
  rw [if_neg hlen, htake, leValue_leBytes, hv]

/-- C5 fails on the code: on a `Decimal(9,0)` column the int32 value -1 is written as
ff ff ff ff, and Read, which takes the four bytes through the decoder's unsigned
`UInt32`, returns "4294967295" where the decimal with coefficient -1 reads "-1". -/
theorem C5_read32_is_unsigned (fo : FloatOps) :
    (Decimal.mk "c" "Decimal(9,0)" 32 9 0).Write fo (.val (.int32 (-1))) =
        .ok [0xff, 0xff, 0xff, 0xff] ∧
      (Decimal.mk "c" "Decimal(9,0)" 32 9 0).Read [0xff, 0xff, 0xff, 0xff] = .ok "4294967295" ∧
      (sdecimal.New (-1) 0).String = "-1" := by
  refine ⟨by rfl, by rfl, by rfl⟩
theorem le4_signed (n : Int) (hlo : -(2 ^ 31) ≤ n) (hhi : n ≤ 2 ^ 31 - 1) :
    int32 (leValue (leBytes 4 (uint32 n))) = n := by
  rw [leValue_leBytes]
  unfold int32 uint32
  omega

theorem int32_id (n : Int) (hlo : -(2 ^ 31) ≤ n) (hhi : n ≤ 2 ^ 31 - 1) : int32 n = n := by
  unfold int32
  omega

theorem write32_int_spec (fo : FloatOps) (d : Decimal) (v : Value) (n : Int)
    (hk : v.write32Integer = some n) (hr : v.inRange) :
    d.write32 fo v =
      if n < -(2 ^ 31) ∨ 2 ^ 31 - 1 < n then
        .error (.narrowingOverflow
          (match v with
            | .val (.int64 _) | .ref (.int64 _) => "int64"
            | .val (.uint32 _) => "uint32"
            | .ref (.uint32 _) => "uint34"
            | _ => "uint64") "int32")
      else Encoder.Int32 n := by
  rcases v with _ | s | s | _
  · simp [Value.write32Integer] at hk
  · cases s <;> simp only [Value.write32Integer, Option.some.injEq, reduceCtorEq] at hk <;>
      (have hk2 := hk.symm; subst hk2) <;> simp only [Value.inRange, Scalar.inRange] at hr <;>
      simp only [Decimal.write32, overflow, MaxInt32, MinInt32]
    all_goals first
      | (have h1 : ¬ (n < -(2 ^ 31) ∨ 2 ^ 31 - 1 < n) := by omega
         rw [if_neg h1, int32_id n (by omega) (by omega)])
      | (by_cases h1 : n < -(2 ^ 31) ∨ 2 ^ 31 - 1 < n
         · rw [if_pos h1, if_pos (by omega)]
         · rw [if_neg h1, if_neg (by omega), int32_id n (by omega) (by omega)])
  · cases s <;> simp only [Value.write32Integer, Option.some.injEq, reduceCtorEq] at hk <;>
      (have hk2 := hk.symm; subst hk2) <;> simp only [Value.inRange, Scalar.inRange] at hr <;>
      simp only [Decimal.write32, overflow, MaxInt32, MinInt32]
    all_goals first
      | (have h1 : ¬ (n < -(2 ^ 31) ∨ 2 ^ 31 - 1 < n) := by omega
         rw [if_neg h1, int32_id n (by omega) (by omega)])
      | (by_cases h1 : n < -(2 ^ 31) ∨ 2 ^ 31 - 1 < n
         · rw [if_pos h1, if_pos (by omega)]
         · rw [if_neg h1, if_neg (by omega), int32_id n (by omega) (by omega)])
  · simp [Value.write32Integer] at hk

/-- C7: for every native integer input that write32 has a case for, write32 answers the
narrowing-overflow error exactly when the numeric value lies outside [-2^31, 2^31-1], and
exactly otherwise it hands the encoder the 32-bit integer equal to the input: the four
bytes written read back, as a signed little-endian integer, to the input value. -/
theorem C7_write32_narrowing (fo : FloatOps) (d : Decimal) (v : Value) (n : Int)
    (hk : v.write32Integer = some n) (hr : v.inRange) :
    ((∃ src dst, d.write32 fo v = .error (.narrowingOverflow src dst)) ↔
        (n < -(2 ^ 31) ∨ 2 ^ 31 - 1 < n)) ∧
      ((d.write32 fo v = Encoder.Int32 n ∧ d.write32 fo v = .ok (leBytes 4 (uint32 n)) ∧
          int32 (leValue (leBytes 4 (uint32 n))) = n) ↔
        (-(2 ^ 31) ≤ n ∧ n ≤ 2 ^ 31 - 1)) := by
  have hspec := write32_int_spec fo d v n hk hr
  by_cases h : n < -(2 ^ 31) ∨ 2 ^ 31 - 1 < n
  · rw [if_pos h] at hspec
    refine ⟨⟨fun _ => h, fun _ => ⟨_, _, hspec⟩⟩, ⟨fun hw => ?_, fun hin => ?_⟩⟩
    · rw [hspec] at hw
      exact absurd hw.1 (by simp [Encoder.Int32])
    · omega
  · rw [if_neg h] at hspec
    have hin : -(2 ^ 31) ≤ n ∧ n ≤ 2 ^ 31 - 1 := by omega
    refine ⟨⟨?_, fun h' => absurd h' h⟩,
      ⟨fun _ => hin, fun _ => ⟨hspec, hspec, le4_signed n hin.1 hin.2⟩⟩⟩
    rintro ⟨src, dst, he⟩
    rw [hspec] at he
    cases he

/-- The witness of C7: the `int64` value -2^31 by reference, which is written. -/
theorem C7_write32_narrowing_witness :
    ((∃ src dst, (Decimal.mk "c" "Decimal(9,0)" 32 9 0).write32 ⟨id, fun _ _ => 0, fun _ _ => 0⟩
          (.ref (.int64 (-2147483648))) = .error (.narrowingOverflow src dst)) ↔
        ((-2147483648 : Int) < -(2 ^ 31) ∨ 2 ^ 31 - 1 < (-2147483648 : Int))) ∧
      (((Decimal.mk "c" "Decimal(9,0)" 32 9 0).write32 ⟨id, fun _ _ => 0, fun _ _ => 0⟩
            (.ref (.int64 (-2147483648))) = Encoder.Int32 (-2147483648) ∧
          (Decimal.mk "c" "Decimal(9,0)" 32 9 0).write32 ⟨id, fun _ _ => 0, fun _ _ => 0⟩
            (.ref (.int64 (-2147483648))) = .ok (leBytes 4 (uint32 (-2147483648))) ∧
          int32 (leValue (leBytes 4 (uint32 (-2147483648)))) = -2147483648) ↔
        (-(2 ^ 31) ≤ (-2147483648 : Int) ∧ (-2147483648 : Int) ≤ 2 ^ 31 - 1)) :=
  C7_write32_narrowing ⟨id, fun _ _ => 0, fun _ _ => 0⟩ (Decimal.mk "c" "Decimal(9,0)" 32 9 0)
    (.ref (.int64 (-2147483648))) (-2147483648) rfl (by decide)

theorem le8_signed (n : Int) (hlo : -(2 ^ 63) ≤ n) (hhi : n ≤ 2 ^ 63 - 1) :
    int64 (leValue (leBytes 8 (uint64 n))) = n := by
  rw [leValue_leBytes]
  unfold int64 uint64
  omega

theorem int64_id (n : Int) (hlo : -(2 ^ 63) ≤ n) (hhi : n ≤ 2 ^ 63 - 1) : int64 n = n := by
  unfold int64
  omega

theorem write64_int_spec (fo : FloatOps) (d : Decimal) (v : Value) (n : Int)
    (hk : v.write64Integer = some n) (hr : v.inRange) :
    d.write64 fo v =
      if n < -(2 ^ 63) ∨ 2 ^ 63 - 1 < n then .error (.narrowingOverflow "uint64" "int64")
      else Encoder.Int64 n := by
  rcases v with _ | s | s | _
  · simp [Value.write64Integer] at hk
  · cases s <;> simp only [Value.write64Integer, Option.some.injEq, reduceCtorEq] at hk <;>
      (have hk2 := hk.symm; subst hk2) <;> simp only [Value.inRange, Scalar.inRange] at hr <;>
      simp only [Decimal.write64, overflow, MaxInt64]
    all_goals first
      | (have h1 : ¬ (n < -(2 ^ 63) ∨ 2 ^ 63 - 1 < n) := by omega
         rw [if_neg h1, int64_id n (by omega) (by omega)])
      | (by_cases h1 : n < -(2 ^ 63) ∨ 2 ^ 63 - 1 < n
         · rw [if_pos h1, if_pos (by omega)]
         · rw [if_neg h1, if_neg (by omega), int64_id n (by omega) (by omega)])
  · cases s <;> simp only [Value.write64Integer, Option.some.injEq, reduceCtorEq] at hk <;>
      (have hk2 := hk.symm; subst hk2) <;> simp only [Value.inRange, Scalar.inRange] at hr <;>
      simp only [Decimal.write64, overflow, MaxInt64]
    all_goals first
      | (have h1 : ¬ (n < -(2 ^ 63) ∨ 2 ^ 63 - 1 < n) := by omega
         rw [if_neg h1, int64_id n (by omega) (by omega)])
      | (by_cases h1 : n < -(2 ^ 63) ∨ 2 ^ 63 - 1 < n
         · rw [if_pos h1, if_pos (by omega)]
         · rw [if_neg h1, if_neg (by omega), int64_id n (by omega) (by omega)])
  · simp [Value.write64Integer] at hk

/-- C8: for every native integer input that write64 has a case for, write64 answers the
narrowing-overflow error exactly when the numeric value lies outside [-2^63, 2^63-1],
which is exactly when the input is a uint64 (or a reference to one) above 2^63-1, and
exactly otherwise it hands the encoder the 64-bit integer equal to the input: the eight
bytes written read back, as a signed little-endian integer, to the input value. -/
theorem C8_write64_narrowing (fo : FloatOps) (d : Decimal) (v : Value) (n : Int)
    (hk : v.write64Integer = some n) (hr : v.inRange) :
    ((∃ src dst, d.write64 fo v = .error (.narrowingOverflow src dst)) ↔
        (n < -(2 ^ 63) ∨ 2 ^ 63 - 1 < n)) ∧
      ((n < -(2 ^ 63) ∨ 2 ^ 63 - 1 < n) ↔
        ((v = .val (.uint64 n) ∨ v = .ref (.uint64 n)) ∧ 2 ^ 63 - 1 < n)) ∧
      ((d.write64 fo v = Encoder.Int64 n ∧ d.write64 fo v = .ok (leBytes 8 (uint64 n)) ∧
          int64 (leValue (leBytes 8 (uint64 n))) = n) ↔
        (-(2 ^ 63) ≤ n ∧ n ≤ 2 ^ 63 - 1)) := by
  have hspec := write64_int_spec fo d v n hk hr
  have honly : (n < -(2 ^ 63) ∨ 2 ^ 63 - 1 < n) →
      (v = .val (.uint64 n) ∨ v = .ref (.uint64 n)) ∧ 2 ^ 63 - 1 < n := by
    intro hout
    rcases v with _ | s | s | _
    · simp [Value.write64Integer] at hk
    · cases s <;> simp only [Value.write64Integer, Option.some.injEq, reduceCtorEq] at hk <;>
        (have hk2 := hk.symm; subst hk2) <;> simp only [Value.inRange, Scalar.inRange] at hr <;>
        first
          | exact ⟨Or.inl rfl, by omega⟩
          | omega
    · cases s <;> simp only [Value.write64Integer, Option.some.injEq, reduceCtorEq] at hk <;>
        (have hk2 := hk.symm; subst hk2) <;> simp only [Value.inRange, Scalar.inRange] at hr <;>
        first
          | exact ⟨Or.inr rfl, by omega⟩
          | omega
    · simp [Value.write64Integer] at hk
  have honly2 : (n < -(2 ^ 63) ∨ 2 ^ 63 - 1 < n) ↔
      ((v = .val (.uint64 n) ∨ v = .ref (.uint64 n)) ∧ 2 ^ 63 - 1 < n) :=
    ⟨honly, fun hh => Or.inr hh.2⟩
  by_cases h : n < -(2 ^ 63) ∨ 2 ^ 63 - 1 < n
  · rw [if_pos h] at hspec
    refine ⟨⟨fun _ => h, fun _ => ⟨_, _, hspec⟩⟩, honly2, ⟨fun hw => ?_, fun hin => ?_⟩⟩
    · rw [hspec] at hw
      exact absurd hw.1 (by simp [Encoder.Int64])
    · omega
  · rw [if_neg h] at hspec
    have hin : -(2 ^ 63) ≤ n ∧ n ≤ 2 ^ 63 - 1 := by omega
    refine ⟨⟨?_, fun h' => absurd h' h⟩, honly2,
      ⟨fun _ => hin, fun _ => ⟨hspec, hspec, le8_signed n hin.1 hin.2⟩⟩⟩
    rintro ⟨src, dst, he⟩
    rw [hspec] at he
    cases he

/-- The witness of C8: the `uint64` value 2^63, which is refused. -/
theorem C8_write64_narrowing_witness :
    ((∃ src dst, (Decimal.mk "c" "Decimal(18,0)" 64 18 0).write64 ⟨id, fun _ _ => 0, fun _ _ => 0⟩
          (.val (.uint64 9223372036854775808)) = .error (.narrowingOverflow src dst)) ↔
        ((9223372036854775808 : Int) < -(2 ^ 63) ∨ 2 ^ 63 - 1 < (9223372036854775808 : Int))) ∧
      (((9223372036854775808 : Int) < -(2 ^ 63) ∨ 2 ^ 63 - 1 < (9223372036854775808 : Int)) ↔
        (((Value.val (.uint64 9223372036854775808)) = .val (.uint64 9223372036854775808) ∨
            (Value.val (.uint64 9223372036854775808)) = .ref (.uint64 9223372036854775808)) ∧
          2 ^ 63 - 1 < (9223372036854775808 : Int))) ∧
      (((Decimal.mk "c" "Decimal(18,0)" 64 18 0).write64 ⟨id, fun _ _ => 0, fun _ _ => 0⟩
            (.val (.uint64 9223372036854775808)) = Encoder.Int64 9223372036854775808 ∧
          (Decimal.mk "c" "Decimal(18,0)" 64 18 0).write64 ⟨id, fun _ _ => 0, fun _ _ => 0⟩
            (.val (.uint64 9223372036854775808)) = .ok (leBytes 8 (uint64 9223372036854775808)) ∧
          int64 (leValue (leBytes 8 (uint64 9223372036854775808))) = 9223372036854775808) ↔
        (-(2 ^ 63) ≤ (9223372036854775808 : Int) ∧ (9223372036854775808 : Int) ≤ 2 ^ 63 - 1)) :=
  C8_write64_narrowing ⟨id, fun _ _ => 0, fun _ _ => 0⟩ (Decimal.mk "c" "Decimal(18,0)" 64 18 0)
    (.val (.uint64 9223372036854775808)) 9223372036854775808 rfl (by decide)

/-- C9 fails on the code: on a `Decimal(18,2)` column the decimal with coefficient 5 and
exponent 2 (the number 500), given directly, by reference or as the string "5e2", is
written as the integer 500 (f4 01 00 ..), where the coefficient at exponent -2 is 50000
(50 c3 00 ..); `parseShopSpringDecimalValue` compares the exponent with `scale` and skips
the re-expression when they are equal.  With exponent 1 the same column writes 5000. -/
theorem C9_exponent_equal_to_scale (fo : FloatOps) :
    (Decimal.mk "c" "Decimal(18,2)" 64 18 2).Write fo (.val (.decimal ⟨5, 2⟩)) =
        .ok [0xf4, 0x01, 0, 0, 0, 0, 0, 0] ∧
      (Decimal.mk "c" "Decimal(18,2)" 64 18 2).Write fo (.ref (.decimal ⟨5, 2⟩)) =
        .ok [0xf4, 0x01, 0, 0, 0, 0, 0, 0] ∧
      (Decimal.mk "c" "Decimal(18,2)" 64 18 2).Write fo (.val (.string "5e2")) =
        .ok [0xf4, 0x01, 0, 0, 0, 0, 0, 0] ∧
      Encoder.Int64 500 = .ok [0xf4, 0x01, 0, 0, 0, 0, 0, 0] ∧
      coefficientAt 5 2 2 = 50000 ∧
      Encoder.Int64 (coefficientAt 5 2 2) = .ok [0x50, 0xc3, 0, 0, 0, 0, 0, 0] ∧
      (Decimal.mk "c" "Decimal(18,2)" 64 18 2).Write fo (.val (.decimal ⟨5, 1⟩)) =
        Encoder.Int64 (coefficientAt 5 1 2) := by
  refine ⟨by rfl, by rfl, by rfl, by rfl, by rfl, by rfl, by rfl⟩

/-- C10 fails on the code: on a `Decimal(18,0)` column the string "9223372036854775808"
(2^63, outside the signed 64-bit range) is written as the integer -2^63 with no error,
and on a `Decimal(9,0)` column the string "18446744073709551616" (2^64) is written as 0;
`IntPart` keeps the low 64 bits without a check.  The width-32 check does refuse
"4294967296". -/
theorem C10_decimal_overflow_wraps (fo : FloatOps) :
    (Decimal.mk "c" "Decimal(18,0)" 64 18 0).Write fo (.val (.string "9223372036854775808")) =
        .ok [0, 0, 0, 0, 0, 0, 0, 0x80] ∧
      Encoder.Int64 (-(2 ^ 63)) = .ok [0, 0, 0, 0, 0, 0, 0, 0x80] ∧
      coefficientAt 9223372036854775808 0 0 = 2 ^ 63 ∧
      (Decimal.mk "c" "Decimal(9,0)" 32 9 0).Write fo (.val (.string "18446744073709551616")) =
        .ok [0, 0, 0, 0] ∧
      coefficientAt 18446744073709551616 0 0 = 2 ^ 64 ∧
      (Decimal.mk "c" "Decimal(9,0)" 32 9 0).Write fo (.val (.string "4294967296")) =
        .error (.narrowingOverflow "int64" "int32") := by
  refine ⟨by rfl, by rfl, by rfl, by rfl, by rfl, by rfl⟩

theorem bigInt64_of_inRange {x : Int} (hlo : MinInt64 ≤ x) (hhi : x ≤ MaxInt64) :
    bigInt64 x = x := by
  unfold MinInt64 at hlo
  unfold MaxInt64 at hhi
  unfold bigInt64
  by_cases hx : x < 0
  · simp only [hx, if_true]
    unfold int64
    omega
  · simp only [hx, if_false]
    unfold int64
    omega

theorem rescale_zero_value (c e : Int) :
    ((sdecimal.NewFromBigInt c e).rescale 0).value = coefficientAt c e 0 := by
  unfold sdecimal.Decimal.rescale sdecimal.NewFromBigInt coefficientAt
  by_cases h0 : e = 0
  · subst h0; simp
  · rw [if_neg h0]
    by_cases hpos : 0 > e
    · have h1 : ¬ (0 ≤ e + 0) := by omega
      have h2 : (0 - e).natAbs = (-(e + 0)).toNat := by omega
      rw [if_neg h1]
      dsimp only
      rw [if_pos hpos, h2]
    · have h1 : 0 ≤ e + 0 := by omega
      have h2 : (0 - e).natAbs = (e + 0).toNat := by omega
      rw [if_pos h1]
      dsimp only
      rw [if_neg hpos, h2]

theorem compare_zero_ne (c : Int) (hc : c ≠ 0) : (compare 0 c == Ordering.eq) = false := by
  cases h : compare 0 c with
  | lt => rfl
  | gt => rfl
  | eq => exact absurd (compare_eq_iff_eq.mp h).symm hc

theorem Zero_Equal_false (dec : sdecimal.Decimal) (hc : dec.value ≠ 0) :
    sdecimal.Zero.Equal dec = false := by
  obtain ⟨c, e⟩ := dec
  simp only at hc
  unfold sdecimal.Decimal.Equal sdecimal.Decimal.Cmp sdecimal.Zero sdecimal.New
  by_cases h1 : (1 : Int) = e
  · subst h1
    rw [if_pos rfl]
    exact compare_zero_ne c hc
  · rw [if_neg h1]
    have hz : ((sdecimal.Decimal.mk 0 1).rescale (min 1 e)).value = 0 := by
      unfold sdecimal.Decimal.rescale
      by_cases a : (1 : Int) = min 1 e
      · rw [if_pos a]
      · rw [if_neg a]
        dsimp only
        split
        · exact Int.zero_tdiv _
        · exact Int.zero_mul _
    have hd : ((sdecimal.Decimal.mk c e).rescale (min 1 e)).value ≠ 0 := by
      unfold sdecimal.Decimal.rescale
      by_cases a : e = min 1 e
      · rw [if_pos a]; exact hc
      · have hlt : ¬ (min 1 e > e) := by omega
        rw [if_neg a]
        dsimp only
        rw [if_neg hlt]
        exact mul_ne_zero hc (pow_ne_zero _ (by norm_num))
    dsimp only
    rw [hz]
    exact compare_zero_ne _ hd

theorem coefficientAt_shift (c e scale : Int) :
    coefficientAt c (e + scale) 0 = coefficientAt c e scale := by
  unfold coefficientAt
  rw [Int.add_zero]

/-- Away from the case `Exponent == scale` with a non-zero scale, the value that
`parseShopSpringDecimalValue` hands the 32- and 64-bit writers is the integer part of
`c * 10 ^ (e + scale)`, as long as that fits an `int64`. -/
theorem parse_decimal_coefficient (d : Decimal) (dec : sdecimal.Decimal)
    (hw : d.nobits = 32 ∨ d.nobits = 64) (hc : dec.value ≠ 0)
    (hne : dec.exp ≠ d.scale ∨ d.scale = 0)
    (hs : -(2 ^ 31) ≤ d.scale ∧ d.scale ≤ 2 ^ 31 - 1)
    (he : -(2 ^ 31) ≤ dec.exp + d.scale ∧ dec.exp + d.scale ≤ 2 ^ 31 - 1)
    (hlo : MinInt64 ≤ coefficientAt dec.value dec.exp d.scale)
    (hhi : coefficientAt dec.value dec.exp d.scale ≤ MaxInt64) :
    d.parseShopSpringDecimalValue (some dec) =
      .ok (.val (.int64 (coefficientAt dec.value dec.exp d.scale))) := by
  have hsc : int32 d.scale = d.scale := int32_id _ hs.1 hs.2
  have hsum : int32 (dec.exp + d.scale) = dec.exp + d.scale := int32_id _ he.1 he.2
  unfold Decimal.parseShopSpringDecimalValue
  dsimp only
  rw [Zero_Equal_false dec hc]
  simp only [Bool.false_eq_true, if_false, if_pos hw, sdecimal.Decimal.Exponent,
    sdecimal.Decimal.Coefficient, sdecimal.Decimal.IntPart]
  by_cases hx : dec.exp = d.scale
  · have h0 : d.scale = 0 := by
      rcases hne with h | h
      · exact absurd hx h
      · exact h
    have hx0 : dec.exp = 0 := by rw [hx, h0]
    have hval : (dec.rescale 0).value = coefficientAt dec.value dec.exp d.scale := by
      have := rescale_zero_value dec.value dec.exp
      rw [← coefficientAt_shift, h0, Int.add_zero]
      exact this
    simp only [hx, ne_eq, not_true_eq_false, if_false]
    rw [hval, bigInt64_of_inRange hlo hhi, hx]
  · have hval : ((sdecimal.NewFromBigInt dec.value (dec.exp + d.scale)).rescale 0).value =
        coefficientAt dec.value dec.exp d.scale := by
      rw [rescale_zero_value, coefficientAt_shift]
    simp only [ne_eq, hx, not_false_eq_true, if_true, hsc, hsum]
    rw [hval, bigInt64_of_inRange hlo hhi]

theorem toDigitsCore_eq (f : Nat) : ∀ n ds, n < f →
    Nat.toDigitsCore 10 f n ds = Nat.toDigits 10 n ++ ds := by
  induction f using Nat.strong_induction_on with
  | _ f ih =>
    intro n ds hn
    cases f with
    | zero => omega
    | succ f =>
      by_cases h0 : n / 10 = 0
      · have h1 : Nat.toDigitsCore 10 (f + 1) n ds = (n % 10).digitChar :: ds := by
          simp [Nat.toDigitsCore, h0]
        have h2 : Nat.toDigits 10 n = [(n % 10).digitChar] := by
          simp [Nat.toDigits, Nat.toDigitsCore, h0]
        rw [h1, h2]; rfl
      · have h1 : Nat.toDigitsCore 10 (f + 1) n ds =
            Nat.toDigitsCore 10 f (n / 10) ((n % 10).digitChar :: ds) := by
          simp [Nat.toDigitsCore, h0]
        have h2 : Nat.toDigits 10 n = Nat.toDigitsCore 10 n (n / 10) [(n % 10).digitChar] := by
          simp [Nat.toDigits, Nat.toDigitsCore, h0]
        have hlt : n / 10 < n := by omega
        rw [h1, h2, ih f (Nat.lt_succ_self f) (n / 10) _ (by omega),
          ih n hn (n / 10) _ hlt]
        simp

theorem toDigits_small (n : Nat) (h : n < 10) : Nat.toDigits 10 n = [n.digitChar] := by
  have h0 : n / 10 = 0 := by omega
  have h1 : n % 10 = n := by omega
  simp [Nat.toDigits, Nat.toDigitsCore, h0, h1]

theorem toDigits_step (n : Nat) (h : 10 ≤ n) :
    Nat.toDigits 10 n = Nat.toDigits 10 (n / 10) ++ [(n % 10).digitChar] := by
  have h0 : n / 10 ≠ 0 := by omega
  have h2 : Nat.toDigits 10 n = Nat.toDigitsCore 10 n (n / 10) [(n % 10).digitChar] := by
    simp [Nat.toDigits, Nat.toDigitsCore, h0]
  rw [h2, toDigitsCore_eq n (n / 10) _ (by omega)]

theorem digitChar_isDigit (n : Nat) (h : n < 10) :
    n.digitChar.isDigit = true ∧ n.digitChar.toNat - 48 = n := by
  interval_cases n <;> exact ⟨by decide, by decide⟩

/-- The value `strconv` reads off a run of digits. -/
theorem digitsValue_append (xs : List Char) (c : Char) :
    (xs ++ [c]).foldl (fun acc c => acc * 10 + (c.toNat - 48)) 0 =
      xs.foldl (fun acc c => acc * 10 + (c.toNat - 48)) 0 * 10 + (c.toNat - 48) := by
  simp [List.foldl_append]

theorem toDigits_spec (n : Nat) :
    (Nat.toDigits 10 n) ≠ [] ∧ (∀ c ∈ Nat.toDigits 10 n, c.isDigit = true) ∧
      (Nat.toDigits 10 n).foldl (fun acc c => acc * 10 + (c.toNat - 48)) 0 = n := by
  induction n using Nat.strong_induction_on with
  | _ n ih =>
    by_cases h : n < 10
    · rw [toDigits_small n h]
      obtain ⟨h1, h2⟩ := digitChar_isDigit n h
      refine ⟨by simp, ?_, ?_⟩
      · intro c hc
        simp only [List.mem_singleton] at hc
        rw [hc]; exact h1
      · simp [h2]
    · have hge : 10 ≤ n := by omega
      obtain ⟨i1, i2, i3⟩ := ih (n / 10) (by omega)
      obtain ⟨h1, h2⟩ := digitChar_isDigit (n % 10) (by omega)
      rw [toDigits_step n hge]
      refine ⟨by simp, ?_, ?_⟩
      · intro c hc
        rcases List.mem_append.mp hc with hc | hc
        · exact i2 c hc
        · simp only [List.mem_singleton] at hc
          rw [hc]; exact h1
      · rw [digitsValue_append, i3, h2]
        omega

theorem parseDigits_toDigits (n : Nat) : sdecimal.parseDigits (Nat.toDigits 10 n) = some n := by
  obtain ⟨h1, h2, h3⟩ := toDigits_spec n
  have hall : (Nat.toDigits 10 n).all Char.isDigit = true := List.all_eq_true.mpr h2
  have hemp : (Nat.toDigits 10 n).isEmpty = false := by
    cases hd : Nat.toDigits 10 n with
    | nil => exact absurd hd h1
    | cons a l => rfl
  unfold sdecimal.parseDigits
  rw [hemp, hall, h3]
  rfl

theorem isDigit_facts (c : Char) (h : c.isDigit = true) :
    c ≠ '+' ∧ c ≠ '-' ∧ c ≠ ',' ∧ isSpace c = false ∧ c.utf8Size = 1 := by
  have hb : 48 ≤ c.toNat ∧ c.toNat ≤ 57 := by
    simp only [Char.isDigit, Bool.and_eq_true, decide_eq_true_eq] at h
    have h1 := h.1
    have h2 := h.2
    simp only [UInt32.le_def, Fin.le_def] at h1 h2
    exact ⟨h1, h2⟩
  refine ⟨?_, ?_, ?_, ?_, ?_⟩
  · rintro rfl; revert hb; decide
  · rintro rfl; revert hb; decide
  · rintro rfl; revert hb; decide
  · unfold isSpace
    generalize c.toNat = k at hb
    obtain ⟨h1, h2⟩ := hb
    interval_cases k <;> rfl
  · have hv : c.val ≤ 127 := by
      have : c.val.toNat ≤ 57 := hb.2
      simp only [UInt32.le_def, Fin.le_def]
      exact le_trans this (by decide)
    unfold Char.utf8Size
    simp [hv]

theorem parseSigned_digits (s : List Char) (hne : s ≠ []) (hd : ∀ c ∈ s, c.isDigit = true) :
    sdecimal.parseSigned s = (sdecimal.parseDigits s).map Int.ofNat := by
  cases s with
  | nil => exact absurd rfl hne
  | cons c r =>
    obtain ⟨hp, hm, _⟩ := isDigit_facts c (hd c (List.mem_cons_self c r))
    unfold sdecimal.parseSigned
    split
    · rename_i heq
      exact absurd (List.cons.inj heq).1 hp
    · rename_i heq
      exact absurd (List.cons.inj heq).1 hm
    · rfl

theorem parseSigned_bigIntString (x : Int) : sdecimal.parseSigned (bigIntString x) = some x := by
  obtain ⟨h1, h2, _⟩ := toDigits_spec x.natAbs
  unfold bigIntString
  by_cases hx : x < 0
  · rw [if_pos hx]
    show (sdecimal.parseDigits (Nat.toDigits 10 x.natAbs)).map (fun n => -(n : Int)) = some x
    rw [parseDigits_toDigits]
    show some (-((x.natAbs : Nat) : Int)) = some x
    congr 1
    omega
  · rw [if_neg hx, parseSigned_digits _ h1 h2, parseDigits_toDigits]
    show some (((x.natAbs : Nat) : Int)) = some x
    congr 1
    omega

theorem Atoi_bigIntString (x : Int) (hlo : MinInt64 ≤ x) (hhi : x ≤ MaxInt64) :
    Atoi (bigIntString x) = some x := by
  unfold Atoi
  rw [parseSigned_bigIntString]
  simp [Option.filter, hlo, hhi]

theorem bigIntString_chars (x : Int) :
    bigIntString x ≠ [] ∧
      ∀ c ∈ bigIntString x, c ≠ ',' ∧ isSpace c = false := by
  obtain ⟨h1, h2, _⟩ := toDigits_spec x.natAbs
  have hd : ∀ c ∈ Nat.toDigits 10 x.natAbs, c ≠ ',' ∧ isSpace c = false := fun c hc =>
    ⟨(isDigit_facts c (h2 c hc)).2.2.1, (isDigit_facts c (h2 c hc)).2.2.2.1⟩
  unfold bigIntString
  by_cases hx : x < 0
  · rw [if_pos hx]
    refine ⟨by simp, ?_⟩
    intro c hc
    rcases List.mem_cons.mp hc with hc | hc
    · rw [hc]; exact ⟨by decide, by rfl⟩
    · exact hd c hc
  · rw [if_neg hx]
    exact ⟨h1, hd⟩
theorem byteLen_ge_length (s : List Char) : s.length ≤ byteLen s := by
  induction s with
  | nil => simp [byteLen]
  | cons c r ih =>
    have hc : 1 ≤ c.utf8Size := Char.utf8Size_pos c
    simp only [byteLen, List.map_cons, List.sum_cons, List.length_cons] at ih ⊢
    omega

theorem TrimSpace_id (s : List Char) (h : ∀ c ∈ s, isSpace c = false) : TrimSpace s = s := by
  have hdrop : ∀ l : List Char, (∀ c ∈ l, isSpace c = false) → l.dropWhile isSpace = l := by
    intro l hl
    cases l with
    | nil => rfl
    | cons a r => simp [List.dropWhile, hl a (List.mem_cons_self a r)]
  unfold TrimSpace
  rw [hdrop s h, hdrop s.reverse (fun c hc => h c (List.mem_reverse.mp hc)), List.reverse_reverse]

theorem split_two (P S : List Char) (hP : ',' ∉ P) (hS : ',' ∉ S) :
    (P ++ ',' :: S).splitOn ',' = [P, S] := by
  have h := List.splitOn_intercalate [P, S] ','
    (by intro l hl; simp only [List.mem_cons, List.mem_singleton, List.not_mem_nil, or_false] at hl
        rcases hl with rfl | rfl
        · exact hP
        · exact hS)
    (by simp)
  simpa [List.intercalate, List.intersperse] using h

theorem descriptor_shape (p s : Int) :
    ¬ byteLen (descriptor p s).data < 12 ∧
      "Decimal".data.isPrefixOf (descriptor p s).data = true ∧
      (descriptor p s).data.getD 7 ' ' = '(' ∧
      (descriptor p s).data.getLast? = some ')' ∧
      (((descriptor p s).data.drop 8).dropLast).splitOn ',' = [bigIntString p, bigIntString s] := by
  obtain ⟨hPne, hPc⟩ := bigIntString_chars p
  obtain ⟨hSne, hSc⟩ := bigIntString_chars s
  have hdata : (descriptor p s).data =
      'D' :: 'e' :: 'c' :: 'i' :: 'm' :: 'a' :: 'l' :: '(' ::
        (bigIntString p ++ ',' :: bigIntString s ++ [')']) := rfl
  have hPl : 1 ≤ (bigIntString p).length := List.length_pos.mpr hPne
  have hSl : 1 ≤ (bigIntString s).length := List.length_pos.mpr hSne
  refine ⟨?_, ?_, ?_, ?_, ?_⟩
  · have h := byteLen_ge_length (descriptor p s).data
    rw [hdata] at h ⊢
    simp only [List.length_cons, List.length_append, List.length_singleton] at h
    omega
  · rw [hdata]; rfl
  · rw [hdata]; rfl
  · rw [hdata]
    have : 'D' :: 'e' :: 'c' :: 'i' :: 'm' :: 'a' :: 'l' :: '(' ::
        (bigIntString p ++ ',' :: bigIntString s ++ [')']) =
        ('D' :: 'e' :: 'c' :: 'i' :: 'm' :: 'a' :: 'l' :: '(' ::
        (bigIntString p ++ ',' :: bigIntString s)) ++ [')'] := by simp
    rw [this, List.getLast?_append]
    rfl
  · rw [hdata]
    have hd : (List.drop 8 ('D' :: 'e' :: 'c' :: 'i' :: 'm' :: 'a' :: 'l' :: '(' ::
        (bigIntString p ++ ',' :: bigIntString s ++ [')']))).dropLast =
        bigIntString p ++ ',' :: bigIntString s := by
      have : bigIntString p ++ ',' :: bigIntString s ++ [')'] =
          (bigIntString p ++ ',' :: bigIntString s) ++ [')'] := by simp
      show (bigIntString p ++ ',' :: bigIntString s ++ [')']).dropLast = _
      rw [this, List.dropLast_concat]
    rw [hd]
    exact split_two _ _ (fun h => (hPc ',' h).1 rfl) (fun h => (hSc ',' h).1 rfl)

/-- What `parseDecimal` answers on the text `Decimal(p,s)` for integers of the `int`
range: the validation rules in the order of the source. -/
theorem parseDecimal_descriptor (name : String) (p s : Int)
    (hp : MinInt64 ≤ p ∧ p ≤ MaxInt64) (hs : MinInt64 ≤ s ∧ s ≤ MaxInt64) :
    parseDecimal name (descriptor p s) =
      if p < 1 then .error .wrongPrecision
      else if s < 0 ∨ s > p then .error .wrongScale
      else if p ≤ 9 then .ok ⟨name, descriptor p s, 32, p, s⟩
      else if p ≤ 18 then .ok ⟨name, descriptor p s, 64, p, s⟩
      else if p ≤ 38 then .ok ⟨name, descriptor p s, 128, p, s⟩
      else .error .precisionExceeds := by
  obtain ⟨h1, h2, h3, h4, h5⟩ := descriptor_shape p s
  have hP : TrimSpace (bigIntString p) = bigIntString p :=
    TrimSpace_id _ (fun c hc => ((bigIntString_chars p).2 c hc).2)
  have hS : TrimSpace (bigIntString s) = bigIntString s :=
    TrimSpace_id _ (fun c hc => ((bigIntString_chars s).2 c hc).2)
  have hcond : ¬ (byteLen (descriptor p s).data < 12 ∨
      ¬ "Decimal".data.isPrefixOf (descriptor p s).data = true ∨
      (descriptor p s).data.getD 7 ' ' ≠ '(' ∨ (descriptor p s).data.getLast? ≠ some ')') := by
    rintro (h | h | h | h)
    · exact h1 h
    · exact h h2
    · exact h h3
    · exact h h4
  unfold parseDecimal
  simp only [hcond, if_false, h5, List.length_cons, List.length_nil, ne_eq,
    not_true_eq_false, List.getD_cons_zero, List.getD_cons_succ, hP, hS,
    Atoi_bigIntString p hp.1 hp.2, Atoi_bigIntString s hs.1 hs.2]

theorem parseDecimal_ok {name chType : String} {d : Decimal}
    (h : parseDecimal name chType = .ok d) :
    d.name = name ∧ d.chType = chType ∧ 1 ≤ d.precision ∧ 0 ≤ d.scale ∧
      d.scale ≤ d.precision ∧ d.precision ≤ 38 ∧
      d.nobits = (if d.precision ≤ 9 then 32 else if d.precision ≤ 18 then 64 else 128) := by
  unfold parseDecimal at h
  dsimp only at h
  split at h
  · cases h
  · split at h
    · cases h
    · split at h
      · cases h
      · split at h
        · cases h
        · split at h
          · cases h
          · split at h
            · cases h
            · rename_i hp1 _ _ _ hsc
              split at h
              · rename_i h9
                cases h
                refine ⟨rfl, rfl, ?_, ?_, ?_, ?_, ?_⟩ <;> simp only [] <;> omega
              · split at h
                · rename_i h9 h18
                  cases h
                  refine ⟨rfl, rfl, ?_, ?_, ?_, ?_, ?_⟩ <;> simp only [] <;> omega
                · split at h
                  · rename_i h9 h18 h38
                    cases h
                    refine ⟨rfl, rfl, ?_, ?_, ?_, ?_, ?_⟩ <;> simp only [] <;> omega
                  · cases h

theorem factors10At_cases (i : Int) :
    (∃ p, factors10At i = .ok p) ∨ (∃ r, factors10At i = .error (.panic r)) := by
  unfold factors10At
  split
  · exact Or.inr ⟨_, rfl⟩
  · split
    · exact Or.inl ⟨_, rfl⟩
    · exact Or.inr ⟨_, rfl⟩

theorem float2int32_cases (fo : FloatOps) (d : Decimal) (f : Nat) :
    (∃ x, d.float2int32 fo f = .ok x) ∨ (∃ r, d.float2int32 fo f = .error (.panic r)) := by
  unfold Decimal.float2int32
  rcases factors10At_cases d.scale with ⟨p, h⟩ | ⟨r, h⟩
  · exact Or.inl ⟨_, by rw [h]; rfl⟩
  · exact Or.inr ⟨r, by rw [h]; rfl⟩

theorem float2int64_cases (fo : FloatOps) (d : Decimal) (f : Nat) :
    (∃ x, d.float2int64 fo f = .ok x) ∨ (∃ r, d.float2int64 fo f = .error (.panic r)) := by
  unfold Decimal.float2int64
  rcases factors10At_cases d.scale with ⟨p, h⟩ | ⟨r, h⟩
  · exact Or.inl ⟨_, by rw [h]; rfl⟩
  · exact Or.inr ⟨r, by rw [h]; rfl⟩

theorem write32_ne_unachievable (fo : FloatOps) (d : Decimal) (v : Value) :
    d.write32 fo v ≠ .error .unachievable := by
  rcases v with _ | s | s | _
  · simp [Decimal.write32]
  · cases s <;> simp only [Decimal.write32, overflow, Encoder.Int32] <;>
      first
        | (intro h; cases h)
        | (split <;> intro h <;> cases h)
        | (rename_i f
           first
             | (rcases float2int32_cases fo d (fo.widen f) with ⟨x, hx⟩ | ⟨r, hx⟩ <;> rw [hx] <;>
                 intro h <;> cases h)
             | (rcases float2int32_cases fo d f with ⟨x, hx⟩ | ⟨r, hx⟩ <;> rw [hx] <;>
                 intro h <;> cases h))
  · cases s <;> simp only [Decimal.write32, overflow, Encoder.Int32] <;>
      first
        | (intro h; cases h)
        | (split <;> intro h <;> cases h)
        | (rename_i f
           first
             | (rcases float2int32_cases fo d (fo.widen f) with ⟨x, hx⟩ | ⟨r, hx⟩ <;> rw [hx] <;>
                 intro h <;> cases h)
             | (rcases float2int32_cases fo d f with ⟨x, hx⟩ | ⟨r, hx⟩ <;> rw [hx] <;>
                 intro h <;> cases h))
  · simp [Decimal.write32]

theorem write64_ne_unachievable (fo : FloatOps) (d : Decimal) (v : Value) :
    d.write64 fo v ≠ .error .unachievable := by
  rcases v with _ | s | s | _
  · simp [Decimal.write64]
  · cases s <;> simp only [Decimal.write64, overflow, Encoder.Int64] <;>
      first
        | (intro h; cases h)
        | (split <;> intro h <;> cases h)
        | (rename_i f
           first
             | (rcases float2int64_cases fo d (fo.widen f) with ⟨x, hx⟩ | ⟨r, hx⟩ <;> rw [hx] <;>
                 intro h <;> cases h)
             | (rcases float2int64_cases fo d f with ⟨x, hx⟩ | ⟨r, hx⟩ <;> rw [hx] <;>
                 intro h <;> cases h))
  · cases s <;> simp only [Decimal.write64, overflow, Encoder.Int64] <;>
      first
        | (intro h; cases h)
        | (split <;> intro h <;> cases h)
        | (rename_i f
           first
             | (rcases float2int64_cases fo d (fo.widen f) with ⟨x, hx⟩ | ⟨r, hx⟩ <;> rw [hx] <;>
                 intro h <;> cases h)
             | (rcases float2int64_cases fo d f with ⟨x, hx⟩ | ⟨r, hx⟩ <;> rw [hx] <;>
                 intro h <;> cases h))
  · simp [Decimal.write64]

theorem write128_ne_unachievable (fo : FloatOps) (d : Decimal) (v : Value) :
    d.write128 fo v ≠ .error .unachievable := by
  rcases v with _ | s | s | _
  · simp [Decimal.write128]
  · cases s <;> simp only [Decimal.write128, Encoder.Decimal128] <;>
      first
        | (intro h; cases h)
        | (split <;> intro h <;> cases h)
        | (rename_i f
           first
             | (rcases float2int64_cases fo d (fo.widen f) with ⟨x, hx⟩ | ⟨r, hx⟩ <;> rw [hx] <;>
                 intro h <;> cases h)
             | (rcases float2int64_cases fo d f with ⟨x, hx⟩ | ⟨r, hx⟩ <;> rw [hx] <;>
                 intro h <;> cases h))
  · cases s <;> simp only [Decimal.write128, Encoder.Decimal128] <;>
      first
        | (intro h; cases h)
        | (split <;> intro h <;> cases h)
        | (rename_i f
           first
             | (rcases float2int64_cases fo d (fo.widen f) with ⟨x, hx⟩ | ⟨r, hx⟩ <;> rw [hx] <;>
                 intro h <;> cases h)
             | (rcases float2int64_cases fo d f with ⟨x, hx⟩ | ⟨r, hx⟩ <;> rw [hx] <;>
                 intro h <;> cases h))
  · simp [Decimal.write128]

theorem parseShopSpring_cases (d : Decimal) (dec : Option sdecimal.Decimal) :
    (∃ w, d.parseShopSpringDecimalValue dec = .ok w) ∨
      (∃ r, d.parseShopSpringDecimalValue dec = .error (.panic r)) := by
  unfold Decimal.parseShopSpringDecimalValue
  cases dec with
  | none => exact Or.inl ⟨_, rfl⟩
  | some dec =>
    dsimp only
    split
    · exact Or.inl ⟨_, rfl⟩
    · split
      · split <;> exact Or.inl ⟨_, rfl⟩
      · split
        · split
          · exact Or.inr ⟨_, rfl⟩
          · exact Or.inl ⟨_, rfl⟩
        · exact Or.inl ⟨_, rfl⟩

theorem normalize_cases (d : Decimal) (v : Value) :
    (∃ w, d.normalize v = .ok w) ∨ (∃ r, d.normalize v = .error (.panic r)) ∨
      d.normalize v = .error .newFromString := by
  have hp := fun dec => parseShopSpring_cases d dec
  unfold Decimal.normalize
  split
  · rcases hp _ with h | h
    · exact Or.inl h
    · exact Or.inr (Or.inl h)
  · rcases hp _ with h | h
    · exact Or.inl h
    · exact Or.inr (Or.inl h)
  · rcases hp _ with h | h
    · exact Or.inl h
    · exact Or.inr (Or.inl h)
  · split
    · exact Or.inr (Or.inr rfl)
    · rcases hp _ with h | h
      · exact Or.inl h
      · exact Or.inr (Or.inl h)
  · split
    · exact Or.inr (Or.inr rfl)
    · rcases hp _ with h | h
      · exact Or.inl h
      · exact Or.inr (Or.inl h)
  · exact Or.inl ⟨_, rfl⟩

theorem Write_ne_unachievable (fo : FloatOps) (d : Decimal) (v : Value)
    (hw : d.nobits = 32 ∨ d.nobits = 64 ∨ d.nobits = 128) :
    d.Write fo v ≠ .error .unachievable := by
  unfold Decimal.Write
  rcases normalize_cases d v with ⟨w, h⟩ | ⟨r, h⟩ | h
  · rw [h]
    dsimp only
    rcases hw with hw | hw | hw
    · rw [if_pos hw]; exact write32_ne_unachievable fo d w
    · rw [if_neg (by omega), if_pos hw]; exact write64_ne_unachievable fo d w
    · rw [if_neg (by omega), if_neg (by omega), if_pos hw]
      exact write128_ne_unachievable fo d w
  · rw [h]; intro h'; cases h'
  · rw [h]; intro h'; cases h'

theorem Read_ne_unachievable (d : Decimal) (input : List Byte)
    (hw : d.nobits = 32 ∨ d.nobits = 64 ∨ d.nobits = 128) :
    d.Read input ≠ .error .unachievable := by
  unfold Decimal.Read
  rcases hw with hw | hw | hw
  · rw [if_pos hw]
    unfold Decoder.UInt32
    by_cases hl : input.length < 4
    · rw [if_pos hl]; intro h; cases h
    · rw [if_neg hl]; intro h; cases h
  · rw [if_neg (by omega), if_pos hw]
    unfold Decoder.Int64
    by_cases hl : input.length < 8
    · rw [if_pos hl]; intro h; cases h
    · rw [if_neg hl]; intro h; cases h
  · rw [if_neg (by omega), if_neg (by omega), if_pos hw]
    unfold Decoder.Decimal128
    by_cases hl : input.length < 16
    · rw [if_pos hl]; intro h; cases h
    · rw [if_neg hl]
      dsimp only
      cases hd : decimal128ToBigInt (List.take 16 input) with
      | error e =>
        have he : e = .expected16Bytes := by
          unfold decimal128ToBigInt at hd
          split at hd
          · cases hd; rfl
          · dsimp only at hd
            split at hd <;> cases hd
        rw [he]; intro h; cases h
      | ok p => intro h; cases h


/-- C11: every descriptor parseDecimal returns without error has 1 <= precision,
0 <= scale <= precision <= 38 and nobits in {32, 64, 128}, so neither Write nor Read ends
in the "unachievable execution path" branch for it. -/
theorem C11_parser_invariant (name chType : String) (d : Decimal)
    (h : parseDecimal name chType = .ok d) :
    1 ≤ d.precision ∧ 0 ≤ d.scale ∧ d.scale ≤ d.precision ∧ d.precision ≤ 38 ∧
      (d.nobits = 32 ∨ d.nobits = 64 ∨ d.nobits = 128) ∧
      (∀ (fo : FloatOps) (v : Value), d.Write fo v ≠ .error .unachievable) ∧
      (∀ input : List Byte, d.Read input ≠ .error .unachievable) := by
  obtain ⟨_, _, h1, h2, h3, h4, h5⟩ := parseDecimal_ok h
  have hw : d.nobits = 32 ∨ d.nobits = 64 ∨ d.nobits = 128 := by
    rw [h5]
    by_cases a : d.precision ≤ 9
    · rw [if_pos a]; exact Or.inl rfl
    · rw [if_neg a]
      by_cases b : d.precision ≤ 18
      · rw [if_pos b]; exact Or.inr (Or.inl rfl)
      · rw [if_neg b]; exact Or.inr (Or.inr rfl)
  exact ⟨h1, h2, h3, h4, hw, fun fo v => Write_ne_unachievable fo d v hw,
    fun input => Read_ne_unachievable d input hw⟩

/-- The witness of C11: the descriptor `Decimal(38,0)`. -/
theorem C11_parser_invariant_witness :
    1 ≤ (Decimal.mk "decimal" "Decimal(38,0)" 128 38 0).precision ∧
      0 ≤ (Decimal.mk "decimal" "Decimal(38,0)" 128 38 0).scale ∧
      (Decimal.mk "decimal" "Decimal(38,0)" 128 38 0).scale ≤
        (Decimal.mk "decimal" "Decimal(38,0)" 128 38 0).precision ∧
      (Decimal.mk "decimal" "Decimal(38,0)" 128 38 0).precision ≤ 38 ∧
      ((Decimal.mk "decimal" "Decimal(38,0)" 128 38 0).nobits = 32 ∨
        (Decimal.mk "decimal" "Decimal(38,0)" 128 38 0).nobits = 64 ∨
        (Decimal.mk "decimal" "Decimal(38,0)" 128 38 0).nobits = 128) ∧
      (∀ (fo : FloatOps) (v : Value),
        (Decimal.mk "decimal" "Decimal(38,0)" 128 38 0).Write fo v ≠ .error .unachievable) ∧
      (∀ input : List Byte,
        (Decimal.mk "decimal" "Decimal(38,0)" 128 38 0).Read input ≠ .error .unachievable) :=
  C11_parser_invariant "decimal" "Decimal(38,0)" (Decimal.mk "decimal" "Decimal(38,0)" 128 38 0)
    (by rfl)

/-- C12: for every precision p in 1..38 and scale s in 0..p, parseDecimal of the text
"Decimal(p,s)" succeeds with precision p, scale s and width 32 for p <= 9, 64 for
10 <= p <= 18 and 128 for 19 <= p <= 38; so Decimal(9,0) has width 32, Decimal(18,0)
width 64 and Decimal(38,0) width 128. -/
theorem C12_parse_valid (name : String) (p s : Int)
    (hp1 : 1 ≤ p) (hp2 : p ≤ 38) (hs1 : 0 ≤ s) (hs2 : s ≤ p) :
    parseDecimal name (descriptor p s) =
        .ok ⟨name, descriptor p s, if p ≤ 9 then 32 else if p ≤ 18 then 64 else 128, p, s⟩ ∧
      parseDecimal name "Decimal(9,0)" = .ok ⟨name, "Decimal(9,0)", 32, 9, 0⟩ ∧
      parseDecimal name "Decimal(18,0)" = .ok ⟨name, "Decimal(18,0)", 64, 18, 0⟩ ∧
      parseDecimal name "Decimal(38,0)" = .ok ⟨name, "Decimal(38,0)", 128, 38, 0⟩ := by
  refine ⟨?_, by rfl, by rfl, by rfl⟩
  have hr1 : MinInt64 ≤ p ∧ p ≤ MaxInt64 := by unfold MinInt64 MaxInt64; omega
  have hr2 : MinInt64 ≤ s ∧ s ≤ MaxInt64 := by unfold MinInt64 MaxInt64; omega
  rw [parseDecimal_descriptor name p s hr1 hr2, if_neg (by omega), if_neg (by omega)]
  by_cases a : p ≤ 9
  · rw [if_pos a, if_pos a]
  · rw [if_neg a, if_neg a]
    by_cases b : p ≤ 18
    · rw [if_pos b, if_pos b]
    · rw [if_neg b, if_neg b, if_pos hp2]

/-- The witness of C12: precision 19 and scale 7. -/
theorem C12_parse_valid_witness :
    parseDecimal "c" (descriptor 19 7) =
        .ok ⟨"c", descriptor 19 7, if (19 : Int) ≤ 9 then 32 else if (19 : Int) ≤ 18 then 64 else 128,
          19, 7⟩ ∧
      parseDecimal "c" "Decimal(9,0)" = .ok ⟨"c", "Decimal(9,0)", 32, 9, 0⟩ ∧
      parseDecimal "c" "Decimal(18,0)" = .ok ⟨"c", "Decimal(18,0)", 64, 18, 0⟩ ∧
      parseDecimal "c" "Decimal(38,0)" = .ok ⟨"c", "Decimal(38,0)", 128, 38, 0⟩ :=
  C12_parse_valid "c" 19 7 (by decide) (by decide) (by decide) (by decide)

/-- C13: on the text "Decimal(p,s)" with integer fields p and s (of the range of `int`),
parseDecimal applies the rules in order, the first failure winning: the wrong-precision
error if p < 1, else the wrong-scale error if s < 0 or s > p, else the out-of-range error
if p > 38, else success; Decimal(0,0), Decimal(5,6), Decimal(39,0) and Decimal(39,40) give
the wrong-precision, wrong-scale, out-of-range and wrong-scale error. -/
theorem C13_validation_order (name : String) (p s : Int)
    (hp : MinInt64 ≤ p ∧ p ≤ MaxInt64) (hs : MinInt64 ≤ s ∧ s ≤ MaxInt64) :
    parseDecimal name (descriptor p s) =
        (if p < 1 then .error .wrongPrecision
         else if s < 0 ∨ s > p then .error .wrongScale
         else if p > 38 then .error .precisionExceeds
         else .ok ⟨name, descriptor p s, if p ≤ 9 then 32 else if p ≤ 18 then 64 else 128,
           p, s⟩) ∧
      parseDecimal name "Decimal(0,0)" = .error .wrongPrecision ∧
      parseDecimal name "Decimal(5,6)" = .error .wrongScale ∧
      parseDecimal name "Decimal(39,0)" = .error .precisionExceeds ∧
      parseDecimal name "Decimal(39,40)" = .error .wrongScale := by
  refine ⟨?_, by rfl, by rfl, by rfl, by rfl⟩
  rw [parseDecimal_descriptor name p s hp hs]
  by_cases a : p < 1
  · rw [if_pos a, if_pos a]
  · rw [if_neg a, if_neg a]
    by_cases b : s < 0 ∨ s > p
    · rw [if_pos b, if_pos b]
    · rw [if_neg b, if_neg b]
      by_cases c : p > 38
      · rw [if_pos c, if_neg (by omega), if_neg (by omega), if_neg (by omega)]
      · rw [if_neg c]
        by_cases a9 : p ≤ 9
        · rw [if_pos a9, if_pos a9]
        · rw [if_neg a9, if_neg a9]
          by_cases a18 : p ≤ 18
          · rw [if_pos a18, if_pos a18]
          · rw [if_neg a18, if_neg a18, if_pos (by omega)]

/-- The witness of C13: precision 39 with scale 40, where the scale rule fires first. -/
theorem C13_validation_order_witness :
    parseDecimal "c" (descriptor 39 40) =
        (if (39 : Int) < 1 then .error .wrongPrecision
         else if (40 : Int) < 0 ∨ (40 : Int) > 39 then .error .wrongScale
         else if (39 : Int) > 38 then .error .precisionExceeds
         else .ok ⟨"c", descriptor 39 40,
           if (39 : Int) ≤ 9 then 32 else if (39 : Int) ≤ 18 then 64 else 128, 39, 40⟩) ∧
      parseDecimal "c" "Decimal(0,0)" = .error .wrongPrecision ∧
      parseDecimal "c" "Decimal(5,6)" = .error .wrongScale ∧
      parseDecimal "c" "Decimal(39,0)" = .error .precisionExceeds ∧
      parseDecimal "c" "Decimal(39,40)" = .error .wrongScale :=
  C13_validation_order "c" 39 40 (by decide) (by decide)

theorem descriptor_examples :
    descriptor 9 0 = "Decimal(9,0)" ∧ descriptor 38 0 = "Decimal(38,0)" ∧
      descriptor 39 40 = "Decimal(39,40)" ∧ descriptor 0 0 = "Decimal(0,0)" := by
  refine ⟨by decide, by decide, by decide, by decide⟩

/-- C14: on a width-128 column, a byte buffer (or a reference to one) of length 16 reaches
the encoder unchanged, byte for byte, and any other length makes write128, and so Write,
fail with the "expected 16 bytes" error, nothing being written. -/
theorem C14_raw_buffer (fo : FloatOps) (d : Decimal) (v : List Byte) (hw : d.nobits = 128) :
    d.write128 fo (.val (.bytes v)) =
        (if v.length = 16 then .ok v else .error .expected16Bytes) ∧
      d.write128 fo (.ref (.bytes v)) =
        (if v.length = 16 then .ok v else .error .expected16Bytes) ∧
      d.Write fo (.val (.bytes v)) =
        (if v.length = 16 then .ok v else .error .expected16Bytes) ∧
      d.Write fo (.ref (.bytes v)) =
        (if v.length = 16 then .ok v else .error .expected16Bytes) := by
  have h1 : d.write128 fo (.val (.bytes v)) =
      (if v.length = 16 then .ok v else .error .expected16Bytes) := by
    by_cases h : v.length = 16 <;> simp [Decimal.write128, Encoder.Decimal128, h]
  have h2 : d.write128 fo (.ref (.bytes v)) =
      (if v.length = 16 then .ok v else .error .expected16Bytes) := by
    by_cases h : v.length = 16 <;> simp [Decimal.write128, Encoder.Decimal128, h]
  refine ⟨h1, h2, ?_, ?_⟩
  · rw [← h1]; simp [Decimal.Write, Decimal.normalize, hw]
  · rw [← h2]; simp [Decimal.Write, Decimal.normalize, hw]

/-- The witness of C14: the bytes of getMaxDecimal128Bytes on a `Decimal(38,0)` column. -/
theorem C14_raw_buffer_witness :
    (Decimal.mk "c" "Decimal(38,0)" 128 38 0).write128 ⟨id, fun _ _ => 0, fun _ _ => 0⟩
        (.val (.bytes [0xff, 0xff, 0xff, 0xff, 0x3f, 0x22, 0x8a, 0x09, 0x7a, 0xc4, 0x86, 0x5a,
          0xa8, 0x4c, 0x3b, 0x4b])) =
        (if ([0xff, 0xff, 0xff, 0xff, 0x3f, 0x22, 0x8a, 0x09, 0x7a, 0xc4, 0x86, 0x5a, 0xa8,
            0x4c, 0x3b, 0x4b] : List Byte).length = 16 then
          .ok [0xff, 0xff, 0xff, 0xff, 0x3f, 0x22, 0x8a, 0x09, 0x7a, 0xc4, 0x86, 0x5a, 0xa8, 0x4c,
            0x3b, 0x4b]
         else .error .expected16Bytes) ∧
      (Decimal.mk "c" "Decimal(38,0)" 128 38 0).write128 ⟨id, fun _ _ => 0, fun _ _ => 0⟩
        (.ref (.bytes [0xff, 0xff, 0xff, 0xff, 0x3f, 0x22, 0x8a, 0x09, 0x7a, 0xc4, 0x86, 0x5a,
          0xa8, 0x4c, 0x3b, 0x4b])) =
        (if ([0xff, 0xff, 0xff, 0xff, 0x3f, 0x22, 0x8a, 0x09, 0x7a, 0xc4, 0x86, 0x5a, 0xa8,
            0x4c, 0x3b, 0x4b] : List Byte).length = 16 then
          .ok [0xff, 0xff, 0xff, 0xff, 0x3f, 0x22, 0x8a, 0x09, 0x7a, 0xc4, 0x86, 0x5a, 0xa8, 0x4c,
            0x3b, 0x4b]
         else .error .expected16Bytes) ∧
      (Decimal.mk "c" "Decimal(38,0)" 128 38 0).Write ⟨id, fun _ _ => 0, fun _ _ => 0⟩
        (.val (.bytes [0xff, 0xff, 0xff, 0xff, 0x3f, 0x22, 0x8a, 0x09, 0x7a, 0xc4, 0x86, 0x5a,
          0xa8, 0x4c, 0x3b, 0x4b])) =
        (if ([0xff, 0xff, 0xff, 0xff, 0x3f, 0x22, 0x8a, 0x09, 0x7a, 0xc4, 0x86, 0x5a, 0xa8,
            0x4c, 0x3b, 0x4b] : List Byte).length = 16 then
          .ok [0xff, 0xff, 0xff, 0xff, 0x3f, 0x22, 0x8a, 0x09, 0x7a, 0xc4, 0x86, 0x5a, 0xa8, 0x4c,
            0x3b, 0x4b]
         else .error .expected16Bytes) ∧
      (Decimal.mk "c" "Decimal(38,0)" 128 38 0).Write ⟨id, fun _ _ => 0, fun _ _ => 0⟩
        (.ref (.bytes [0xff, 0xff, 0xff, 0xff, 0x3f, 0x22, 0x8a, 0x09, 0x7a, 0xc4, 0x86, 0x5a,
          0xa8, 0x4c, 0x3b, 0x4b])) =
        (if ([0xff, 0xff, 0xff, 0xff, 0x3f, 0x22, 0x8a, 0x09, 0x7a, 0xc4, 0x86, 0x5a, 0xa8,
            0x4c, 0x3b, 0x4b] : List Byte).length = 16 then
          .ok [0xff, 0xff, 0xff, 0xff, 0x3f, 0x22, 0x8a, 0x09, 0x7a, 0xc4, 0x86, 0x5a, 0xa8, 0x4c,
            0x3b, 0x4b]
         else .error .expected16Bytes) :=
  C14_raw_buffer ⟨id, fun _ _ => 0, fun _ _ => 0⟩ (Decimal.mk "c" "Decimal(38,0)" 128 38 0)
    [0xff, 0xff, 0xff, 0xff, 0x3f, 0x22, 0x8a, 0x09, 0x7a, 0xc4, 0x86, 0x5a, 0xa8, 0x4c, 0x3b, 0x4b]
    rfl

/-- C16 fails on the code at width 32: on a `Decimal(9,2)` column a zero decimal, given
directly, by reference or as the string "0", comes out of `parseShopSpringDecimalValue`
as the `int` 0, for which `write32` has no case, so Write answers the unexpected-type
error; on widths 64 and 128 the same inputs write 8 and 16 zero bytes. -/
theorem C16_zero_on_width32 (fo : FloatOps) :
    (Decimal.mk "c" "Decimal(9,2)" 32 9 2).Write fo (.val (.decimal sdecimal.Zero)) =
        .error (.unexpectedType (.val (.int 0)) (Decimal.mk "c" "Decimal(9,2)" 32 9 2)) ∧
      (Decimal.mk "c" "Decimal(9,2)" 32 9 2).Write fo (.ref (.decimal sdecimal.Zero)) =
        .error (.unexpectedType (.val (.int 0)) (Decimal.mk "c" "Decimal(9,2)" 32 9 2)) ∧
      (Decimal.mk "c" "Decimal(9,2)" 32 9 2).Write fo (.val (.string "0")) =
        .error (.unexpectedType (.val (.int 0)) (Decimal.mk "c" "Decimal(9,2)" 32 9 2)) ∧
      (Decimal.mk "c" "Decimal(18,2)" 64 18 2).Write fo (.val (.string "0")) =
        .ok [0, 0, 0, 0, 0, 0, 0, 0] ∧
      (Decimal.mk "c" "Decimal(38,2)" 128 38 2).Write fo (.val (.string "0")) =
        .ok [0, 0, 0, 0, 0, 0, 0, 0, 0, 0, 0, 0, 0, 0, 0, 0] := by
  refine ⟨by rfl, by rfl, by rfl, by rfl, by rfl⟩

/-- C18 fails on the code at width 128: parseDecimal accepts "Decimal(38,20)", and on the
column it returns a float64 input makes `float2int64` index `factors10` at 20, past its
19 entries, which panics; the same for a float32. -/
theorem C18_factors10_out_of_range (fo : FloatOps) (f : Nat) :
    parseDecimal "c" "Decimal(38,20)" = .ok (Decimal.mk "c" "Decimal(38,20)" 128 38 20) ∧
      factors10.length = 19 ∧
      (Decimal.mk "c" "Decimal(38,20)" 128 38 20).Write fo (.val (.float64 f)) =
        .error (.panic "index out of range") ∧
      (Decimal.mk "c" "Decimal(38,20)" 128 38 20).Write fo (.val (.float32 f)) =
        .error (.panic "index out of range") := by
  refine ⟨by rfl, by rfl, by rfl, by rfl⟩

/-- On the widths 32 and 64 the parser leaves `scale <= 18`, so the table lookup of the
float conversions is defined. -/
theorem factors10At_defined {name chType : String} {d : Decimal}
    (h : parseDecimal name chType = .ok d) (hw : d.nobits ≠ 128) :
    ∃ p, factors10At d.scale = .ok p := by
  obtain ⟨_, _, h1, h2, h3, h4, h5⟩ := parseDecimal_ok h
  have h18 : d.precision ≤ 18 := by
    by_contra hc
    rw [if_neg (by omega), if_neg hc] at h5
    exact hw h5
  obtain ⟨n, hn⟩ : ∃ n : Nat, d.scale = (n : Int) := ⟨d.scale.toNat, by omega⟩
  have hn18 : n ≤ 18 := by omega
  rw [hn]
  interval_cases n <;> exact ⟨_, rfl⟩

/-- On the widths 64 and 128 a decimal equal to zero is written as the all-zero value. -/
theorem zero_decimal_written (fo : FloatOps) (d : Decimal) (dec : sdecimal.Decimal)
    (hz : sdecimal.Zero.Equal dec = true) :
    (d.nobits = 64 → d.Write fo (.val (.decimal dec)) = .ok (List.replicate 8 0) ∧
        d.Write fo (.ref (.decimal dec)) = .ok (List.replicate 8 0)) ∧
      (d.nobits = 128 → d.Write fo (.val (.decimal dec)) = .ok (List.replicate 16 0) ∧
        d.Write fo (.ref (.decimal dec)) = .ok (List.replicate 16 0)) := by
  have hn : d.parseShopSpringDecimalValue (some dec) = .ok (.val (.int 0)) := by
    simp [Decimal.parseShopSpringDecimalValue, hz]
  refine ⟨fun hw => ⟨?_, ?_⟩, fun hw => ⟨?_, ?_⟩⟩
  · simp only [Decimal.Write, Decimal.normalize, hn, hw]; rfl
  · simp only [Decimal.Write, Decimal.normalize, hn, hw]; rfl
  · simp only [Decimal.Write, Decimal.normalize, hn, hw]; rfl
  · simp only [Decimal.Write, Decimal.normalize, hn, hw]; rfl

set_option maxRecDepth 8000 in
/-- C20: for every 16-byte buffer b, decimal128ToBigInt returns an integer of
[-(2^127), 2^127 - 1] and bigIntToDecimal128 of that integer is again the original
contents of b, bit for bit; with the other round trip, every integer of that range being
what its own 16 bytes decode to, the two functions are inverse bijections. -/
theorem C20_bytes_roundtrip (b : List Byte) (hb : b.length = 16) :
    ∃ x : Int, (decimal128ToBigInt b).map Prod.fst = .ok x ∧
      -(2 ^ 127) ≤ x ∧ x ≤ 2 ^ 127 - 1 ∧
      (bigIntToDecimal128 x).map Prod.snd = some b ∧
      ∀ y : Int, -(2 ^ 127) ≤ y → y ≤ 2 ^ 127 - 1 →
        (bigIntToDecimal128 y).map Prod.snd = some b → y = x := by
  have hlt := leValue_lt b
  rw [hb] at hlt
  have hdec := decimal128ToBigInt_value hb
  by_cases hneg : 2 ^ 127 ≤ leValue b
  · rw [if_pos hneg] at hdec
    have hmod : (((leValue b : Int) - 2 ^ 128) % 2 ^ 128).toNat = leValue b := by omega
    have henc := bigIntToDecimal128_bytes ((leValue b : Int) - 2 ^ 128) (by omega) (by omega)
    rw [hmod] at henc
    have hbb := leBytes_leValue b
    rw [hb] at hbb
    rw [hbb] at henc
    refine ⟨(leValue b : Int) - 2 ^ 128, hdec, by omega, by omega, henc, ?_⟩
    intro y hy1 hy2 hy
    have hy' := bigIntToDecimal128_bytes y (by omega) (by omega)
    rw [hy] at hy'
    have hv : leValue b = (y % 2 ^ 128).toNat := by
      have := congrArg leValue (Option.some.inj hy')
      rw [leValue_leBytes] at this
      omega
    omega
  · rw [if_neg hneg] at hdec
    have hmod : (((leValue b : Int)) % 2 ^ 128).toNat = leValue b := by omega
    have henc := bigIntToDecimal128_bytes (leValue b : Int) (by omega) (by omega)
    rw [hmod] at henc
    have hbb := leBytes_leValue b
    rw [hb] at hbb
    rw [hbb] at henc
    refine ⟨(leValue b : Int), hdec, by omega, by omega, henc, ?_⟩
    intro y hy1 hy2 hy
    have hy' := bigIntToDecimal128_bytes y (by omega) (by omega)
    rw [hy] at hy'
    have hv : leValue b = (y % 2 ^ 128).toNat := by
      have := congrArg leValue (Option.some.inj hy')
      rw [leValue_leBytes] at this
      omega
    omega

/-- The witness of C20: the bytes of getMinDecimal128Bytes. -/
theorem C20_bytes_roundtrip_witness :
    ∃ x : Int,
      (decimal128ToBigInt [0x01, 0x00, 0x00, 0x00, 0xc0, 0xdd, 0x75, 0xf6, 0x85, 0x3b, 0x79, 0xa5,
          0x57, 0xb3, 0xc4, 0xb4]).map Prod.fst = .ok x ∧
      -(2 ^ 127) ≤ x ∧ x ≤ 2 ^ 127 - 1 ∧
      (bigIntToDecimal128 x).map Prod.snd =
        some [0x01, 0x00, 0x00, 0x00, 0xc0, 0xdd, 0x75, 0xf6, 0x85, 0x3b, 0x79, 0xa5, 0x57, 0xb3,
          0xc4, 0xb4] ∧
      ∀ y : Int, -(2 ^ 127) ≤ y → y ≤ 2 ^ 127 - 1 →
        (bigIntToDecimal128 y).map Prod.snd =
          some [0x01, 0x00, 0x00, 0x00, 0xc0, 0xdd, 0x75, 0xf6, 0x85, 0x3b, 0x79, 0xa5, 0x57,
            0xb3, 0xc4, 0xb4] → y = x :=
  C20_bytes_roundtrip [0x01, 0x00, 0x00, 0x00, 0xc0, 0xdd, 0x75, 0xf6, 0x85, 0x3b, 0x79, 0xa5,
    0x57, 0xb3, 0xc4, 0xb4] rfl
theorem prefix_iff (cs : List Char) :
    ("Decimal".data.isPrefixOf cs = true ∧ cs.getD 7 ' ' = '(') ↔
      ['D', 'e', 'c', 'i', 'm', 'a', 'l', '('].isPrefixOf cs = true := by
  have hd : "Decimal".data = ['D', 'e', 'c', 'i', 'm', 'a', 'l'] := rfl
  rw [hd]
  rcases cs with _ | ⟨c0, _ | ⟨c1, _ | ⟨c2, _ | ⟨c3, _ | ⟨c4, _ | ⟨c5, _ | ⟨c6, _ | ⟨c7, r⟩⟩⟩⟩⟩⟩⟩⟩ <;>
    simp [List.isPrefixOf]
  · constructor
    · rintro ⟨⟨h0, h1, h2, h3, h4, h5, h6⟩, h7⟩
      exact ⟨h0, h1, h2, h3, h4, h5, h6, h7.symm⟩
    · rintro ⟨h0, h1, h2, h3, h4, h5, h6, h7⟩
      exact ⟨⟨h0, h1, h2, h3, h4, h5, h6⟩, h7.symm⟩

/-- The descriptors `parseDecimal` reports as malformed. -/
theorem parseDecimal_invalidFormat_iff (name chType : String) :
    parseDecimal name chType = .error (.invalidFormat chType) ↔
      (byteLen chType.data < 12 ∨ syntaxFault chType) := by
  unfold syntaxFault
  rw [← prefix_iff]
  unfold parseDecimal
  dsimp only
  by_cases h1 : byteLen chType.data < 12 ∨ ¬ "Decimal".data.isPrefixOf chType.data = true ∨
      chType.data.getD 7 ' ' ≠ '(' ∨ chType.data.getLast? ≠ some ')'
  · rw [if_pos h1]
    refine ⟨fun _ => ?_, fun _ => rfl⟩
    rcases h1 with h | h | h | h
    · exact Or.inl h
    · exact Or.inr (Or.inl (fun hh => h hh.1))
    · exact Or.inr (Or.inl (fun hh => h hh.2))
    · exact Or.inr (Or.inr (Or.inl h))
  · rw [if_neg h1]
    have hn1 : ¬ byteLen chType.data < 12 := fun h => h1 (Or.inl h)
    have hn2 : "Decimal".data.isPrefixOf chType.data = true := by
      by_contra h; exact h1 (Or.inr (Or.inl h))
    have hn3 : chType.data.getD 7 ' ' = '(' := by
      by_contra h; exact h1 (Or.inr (Or.inr (Or.inl h)))
    have hn4 : chType.data.getLast? = some ')' := by
      by_contra h; exact h1 (Or.inr (Or.inr (Or.inr h)))
    by_cases h2 : (((chType.data.drop 8).dropLast).splitOn ',').length ≠ 2
    · rw [if_pos h2]
      exact ⟨fun _ => Or.inr (Or.inr (Or.inr h2)), fun _ => rfl⟩
    · rw [if_neg h2]
      constructor
      · intro h
        exfalso
        split at h
        · cases h
        · split at h
          · cases h
          · split at h
            · cases h
            · split at h
              · cases h
              · split at h
                · cases h
                · split at h
                  · cases h
                  · split at h
                    · cases h
                    · cases h
      · rintro (h | h | h | h)
        · exact absurd h hn1
        · exact absurd ⟨hn2, hn3⟩ h
        · exact absurd hn4 h
        · exact absurd h h2

/-- C19 as stated fails: "Decimal(,)" and "Decimal(1,)" have the prefix, the closing
parenthesis and exactly two fields, and parseDecimal reports both as malformed, because
they are shorter than 12 bytes. -/
theorem C19_short_descriptor_counterexample :
    parseDecimal "c" "Decimal(,)" = .error (.invalidFormat "Decimal(,)") ∧
      ¬ syntaxFault "Decimal(,)" ∧
      parseDecimal "c" "Decimal(1,)" = .error (.invalidFormat "Decimal(1,)") ∧
      ¬ syntaxFault "Decimal(1,)" := by
  refine ⟨by rfl, by decide, by rfl, by decide⟩

/-- C19, amended: parseDecimal answers the malformed-descriptor error exactly when the
text is shorter than 12 bytes, lacks the prefix "Decimal(", does not end with ")", or does
not hold exactly two comma-separated fields between the parentheses; a text of 12 bytes or
more with the prefix, the closing parenthesis and two fields, such as "Decimal(10,)" or
"Decimal(  ,  )", is not reported as malformed but judged by the field rules. -/
theorem C19_malformed_iff (name chType : String) :
    (parseDecimal name chType = .error (.invalidFormat chType) ↔
        (byteLen chType.data < 12 ∨ syntaxFault chType)) ∧
      ((∃ t, parseDecimal name chType = .error (.invalidFormat t)) ↔
        (byteLen chType.data < 12 ∨ syntaxFault chType)) ∧
      parseDecimal name "Decimal(10,)" = .error (.notDecimalType "Decimal(10,)") ∧
      parseDecimal name "Decimal(  ,  )" = .error (.notDecimalType "Decimal(  ,  )") := by
  have h := parseDecimal_invalidFormat_iff name chType
  refine ⟨h, ⟨?_, fun hh => ⟨chType, h.mpr hh⟩⟩, by rfl, by rfl⟩
  rintro ⟨t, ht⟩
  apply h.mp
  have ht2 : t = chType := by
    unfold parseDecimal at ht
    dsimp only at ht
    split at ht
    · cases ht; rfl
    · split at ht
      · cases ht; rfl
      · split at ht
        · cases ht
        · split at ht
          · cases ht
          · split at ht
            · cases ht
            · split at ht
              · cases ht
              · split at ht
                · cases ht
                · split at ht
                  · cases ht
                  · split at ht
                    · cases ht
                    · cases ht
  rw [ht2] at ht; exact ht
theorem parseShopSpring_shape (d : Decimal) (dec : sdecimal.Decimal) :
    (sdecimal.Zero.Equal dec = true ∧
        d.parseShopSpringDecimalValue (some dec) = .ok (.val (.int 0))) ∨
      (sdecimal.Zero.Equal dec = false ∧ (d.nobits = 32 ∨ d.nobits = 64) ∧
        ∃ x, d.parseShopSpringDecimalValue (some dec) = .ok (.val (.int64 x))) ∨
      (sdecimal.Zero.Equal dec = false ∧ d.nobits = 128 ∧
        ((∃ b, d.parseShopSpringDecimalValue (some dec) = .ok (.val (.bytes b))) ∨
          ∃ m, d.parseShopSpringDecimalValue (some dec) = .error (.panic m))) ∨
      (sdecimal.Zero.Equal dec = false ∧ ¬ (d.nobits = 32 ∨ d.nobits = 64) ∧ d.nobits ≠ 128 ∧
        d.parseShopSpringDecimalValue (some dec) = .ok .nil) := by
  unfold Decimal.parseShopSpringDecimalValue
  dsimp only
  cases hz : sdecimal.Zero.Equal dec with
  | true => exact Or.inl ⟨rfl, by simp⟩
  | false =>
    simp only [Bool.false_eq_true, if_false]
    by_cases h1 : d.nobits = 32 ∨ d.nobits = 64
    · rw [if_pos h1]
      refine Or.inr (Or.inl ⟨trivial, h1, ?_⟩)
      split <;> exact ⟨_, rfl⟩
    · rw [if_neg h1]
      by_cases h2 : d.nobits = 128
      · rw [if_pos h2]
        refine Or.inr (Or.inr (Or.inl ⟨trivial, h2, ?_⟩))
        split
        · exact Or.inr ⟨_, rfl⟩
        · exact Or.inl ⟨_, rfl⟩
      · rw [if_neg h2]
        exact Or.inr (Or.inr (Or.inr ⟨trivial, h1, h2, rfl⟩))

theorem Write_width32 (fo : FloatOps) (d : Decimal) (v w : Value) (hw : d.nobits = 32)
    (hn : d.normalize v = .ok w) : d.Write fo v = d.write32 fo w := by
  unfold Decimal.Write
  rw [hn]
  dsimp only
  rw [if_pos hw]

theorem Write_width64 (fo : FloatOps) (d : Decimal) (v w : Value) (hw : d.nobits = 64)
    (hn : d.normalize v = .ok w) : d.Write fo v = d.write64 fo w := by
  unfold Decimal.Write
  rw [hn]
  dsimp only
  rw [if_neg (by omega), if_pos hw]

theorem Write_width128 (fo : FloatOps) (d : Decimal) (v w : Value) (hw : d.nobits = 128)
    (hn : d.normalize v = .ok w) : d.Write fo v = d.write128 fo w := by
  unfold Decimal.Write
  rw [hn]
  dsimp only
  rw [if_neg (by omega), if_neg (by omega), if_pos hw]

theorem Write_error (fo : FloatOps) (d : Decimal) (v : Value) (e : Error)
    (hn : d.normalize v = .error e) : d.Write fo v = .error e := by
  unfold Decimal.Write
  rw [hn]

/-- The 32-bit writer, type by type: no unexpected-type error for the sized integers and
the floats, that error for everything else. -/
theorem write32_support (fo : FloatOps) (d : Decimal) (s : Scalar) :
    match s with
    | .int8 _ | .int16 _ | .int32 _ | .int64 _ | .uint8 _ | .uint16 _ | .uint32 _ | .uint64 _
    | .float32 _ | .float64 _ =>
      (∀ t c, d.write32 fo (.val s) ≠ .error (.unexpectedType t c)) ∧
        (∀ t c, d.write32 fo (.ref s) ≠ .error (.unexpectedType t c))
    | _ =>
      d.write32 fo (.val s) = .error (.unexpectedType (.val s) d) ∧
        d.write32 fo (.ref s) = .error (.unexpectedType (.ref s) d) := by
  cases s <;> dsimp only <;>
    first
      | exact ⟨rfl, rfl⟩
      | (refine ⟨fun t c => ?_, fun t c => ?_⟩ <;>
          simp only [Decimal.write32, overflow, Encoder.Int32] <;>
          first
            | (intro h; cases h)
            | (split <;> intro h <;> cases h)
            | (rename_i f
               first
                 | (rcases float2int32_cases fo d (fo.widen f) with ⟨x, hx⟩ | ⟨r, hx⟩ <;>
                     rw [hx] <;> intro h <;> cases h)
                 | (rcases float2int32_cases fo d f with ⟨x, hx⟩ | ⟨r, hx⟩ <;> rw [hx] <;>
                     intro h <;> cases h)))

/-- The 64-bit writer, type by type. -/
theorem write64_support (fo : FloatOps) (d : Decimal) (s : Scalar) :
    match s with
    | .int _ | .int8 _ | .int16 _ | .int32 _ | .int64 _ | .uint8 _ | .uint16 _ | .uint32 _
    | .uint64 _ | .float32 _ | .float64 _ =>
      (∀ t c, d.write64 fo (.val s) ≠ .error (.unexpectedType t c)) ∧
        (∀ t c, d.write64 fo (.ref s) ≠ .error (.unexpectedType t c))
    | _ =>
      d.write64 fo (.val s) = .error (.unexpectedType (.val s) d) ∧
        d.write64 fo (.ref s) = .error (.unexpectedType (.ref s) d) := by
  cases s <;> dsimp only <;>
    first
      | exact ⟨rfl, rfl⟩
      | (refine ⟨fun t c => ?_, fun t c => ?_⟩ <;>
          simp only [Decimal.write64, overflow, Encoder.Int64] <;>
          first
            | (intro h; cases h)
            | (split <;> intro h <;> cases h)
            | (rename_i f
               first
                 | (rcases float2int64_cases fo d (fo.widen f) with ⟨x, hx⟩ | ⟨r, hx⟩ <;>
                     rw [hx] <;> intro h <;> cases h)
                 | (rcases float2int64_cases fo d f with ⟨x, hx⟩ | ⟨r, hx⟩ <;> rw [hx] <;>
                     intro h <;> cases h)))

/-- The 128-bit writer, type by type. -/
theorem write128_support (fo : FloatOps) (d : Decimal) (s : Scalar) :
    match s with
    | .int _ | .int8 _ | .int16 _ | .int32 _ | .int64 _ | .uint8 _ | .uint16 _ | .uint32 _
    | .uint64 _ | .float32 _ | .float64 _ | .bytes _ =>
      (∀ t c, d.write128 fo (.val s) ≠ .error (.unexpectedType t c)) ∧
        (∀ t c, d.write128 fo (.ref s) ≠ .error (.unexpectedType t c))
    | _ =>
      d.write128 fo (.val s) = .error (.unexpectedType (.val s) d) ∧
        d.write128 fo (.ref s) = .error (.unexpectedType (.ref s) d) := by
  cases s <;> dsimp only <;>
    first
      | exact ⟨rfl, rfl⟩
      | (refine ⟨fun t c => ?_, fun t c => ?_⟩ <;>
          simp only [Decimal.write128, Encoder.Decimal128] <;>
          first
            | (intro h; cases h)
            | (split <;> intro h <;> cases h)
            | (rename_i f
               first
                 | (rcases float2int64_cases fo d (fo.widen f) with ⟨x, hx⟩ | ⟨r, hx⟩ <;>
                     rw [hx] <;> intro h <;> cases h)
                 | (rcases float2int64_cases fo d f with ⟨x, hx⟩ | ⟨r, hx⟩ <;> rw [hx] <;>
                     intro h <;> cases h)))

theorem Write_of_parsed (fo : FloatOps) (d : Decimal) (v : Value) (x : sdecimal.Decimal)
    (hw : d.nobits = 32 ∨ d.nobits = 64 ∨ d.nobits = 128)
    (hn : d.normalize v = d.parseShopSpringDecimalValue (some x))
    (hz : ¬ (sdecimal.Zero.Equal x = true ∧ d.nobits = 32)) :
    ∀ t c, d.Write fo v ≠ .error (.unexpectedType t c) := by
  intro t c
  rcases parseShopSpring_shape d x with ⟨h0, hp⟩ | ⟨_, hb, y, hp⟩ | ⟨_, hb, ⟨b, hp⟩ | ⟨m, hp⟩⟩ |
    ⟨_, h1, h2, _⟩
  · rw [hp] at hn
    rcases hw with hw | hw | hw
    · exact absurd ⟨h0, hw⟩ hz
    · rw [Write_width64 fo d v _ hw hn]
      exact (write64_support fo d (.int 0)).1 t c
    · rw [Write_width128 fo d v _ hw hn]
      exact (write128_support fo d (.int 0)).1 t c
  · rw [hp] at hn
    rcases hb with hb | hb
    · rw [Write_width32 fo d v _ hb hn]
      exact (write32_support fo d (.int64 y)).1 t c
    · rw [Write_width64 fo d v _ hb hn]
      exact (write64_support fo d (.int64 y)).1 t c
  · rw [hp] at hn
    rw [Write_width128 fo d v _ hb hn]
    exact (write128_support fo d (.bytes b)).1 t c
  · rw [hp] at hn
    rw [Write_error fo d v _ hn]
    intro h; cases h
  · rcases hw with hw | hw | hw
    · exact absurd (Or.inl hw) h1
    · exact absurd (Or.inr hw) h1
    · exact absurd hw h2

theorem Write_plain (fo : FloatOps) (d : Decimal) (v : Value) (hn : d.normalize v = .ok v) :
    (d.nobits = 32 → d.Write fo v = d.write32 fo v) ∧
      (d.nobits = 64 → d.Write fo v = d.write64 fo v) ∧
      (d.nobits = 128 → d.Write fo v = d.write128 fo v) :=
  ⟨fun hw => Write_width32 fo d v v hw hn, fun hw => Write_width64 fo d v v hw hn,
    fun hw => Write_width128 fo d v v hw hn⟩

theorem support_val (fo : FloatOps) (d : Decimal) (s : Scalar)
    (hw : d.nobits = 32 ∨ d.nobits = 64 ∨ d.nobits = 128) :
    match supportOn d.nobits (.val s) with
    | .accepted => ∀ t c, d.Write fo (.val s) ≠ .error (.unexpectedType t c)
    | .rejected => d.Write fo (.val s) = .error (.unexpectedType (.val s) d)
    | .leftOut => True := by
  have h32 := (write32_support fo d s)
  have h64 := (write64_support fo d s)
  have h128 := (write128_support fo d s)
  have hn : (match s with
      | .decimal _ | .string _ => True
      | _ => d.normalize (.val s) = .ok (.val s)) := by
    cases s <;> trivial
  cases s
  case decimal x =>
    show (match (if sdecimal.Zero.Equal x = true ∧ d.nobits = 32 then Support.leftOut
      else Support.accepted) with
      | .accepted => ∀ t c, d.Write fo (.val (.decimal x)) ≠ .error (.unexpectedType t c)
      | .rejected => d.Write fo (.val (.decimal x)) = .error (.unexpectedType (.val (.decimal x)) d)
      | .leftOut => True)
    by_cases hz : sdecimal.Zero.Equal x = true ∧ d.nobits = 32
    · rw [if_pos hz]; trivial
    · rw [if_neg hz]; exact Write_of_parsed fo d _ x hw rfl hz
  case string t =>
    cases hN : sdecimal.NewFromString t with
    | none =>
      have hs : supportOn d.nobits (.val (.string t)) = .accepted := by
        simp only [supportOn, hN]
      rw [hs]
      intro t' c
      rw [Write_error fo d _ .newFromString (by simp only [Decimal.normalize, hN])]
      intro h; cases h
    | some x =>
      have hn : d.normalize (.val (.string t)) = d.parseShopSpringDecimalValue (some x) := by
        simp only [Decimal.normalize, hN]
      by_cases hz : sdecimal.Zero.Equal x = true ∧ d.nobits = 32
      · have hs : supportOn d.nobits (.val (.string t)) = .leftOut := by
          simp only [supportOn, hN, hz, and_self, if_true]
        rw [hs]; trivial
      · have hs : supportOn d.nobits (.val (.string t)) = .accepted := by
          simp only [supportOn, hN, hz, if_false]
        rw [hs]; exact Write_of_parsed fo d _ x hw hn hz
  all_goals
    dsimp only at h32 h64 h128 hn
    obtain ⟨p32, p64, p128⟩ := Write_plain fo d _ hn
    rcases hw with hw | hw | hw
    · simp only [supportOn, hw]
      first
        | (rw [p32 hw]; exact h32.1)
        | trivial
    · simp only [supportOn, hw]
      rw [p64 hw]; exact h64.1
    · simp only [supportOn, hw]
      rw [p128 hw]; exact h128.1

theorem support_ref (fo : FloatOps) (d : Decimal) (s : Scalar)
    (hw : d.nobits = 32 ∨ d.nobits = 64 ∨ d.nobits = 128) :
    match supportOn d.nobits (.ref s) with
    | .accepted => ∀ t c, d.Write fo (.ref s) ≠ .error (.unexpectedType t c)
    | .rejected => d.Write fo (.ref s) = .error (.unexpectedType (.ref s) d)
    | .leftOut => True := by
  have h32 := (write32_support fo d s)
  have h64 := (write64_support fo d s)
  have h128 := (write128_support fo d s)
  have hn : (match s with
      | .decimal _ | .string _ => True
      | _ => d.normalize (.ref s) = .ok (.ref s)) := by
    cases s <;> trivial
  cases s
  case decimal x =>
    show (match (if sdecimal.Zero.Equal x = true ∧ d.nobits = 32 then Support.leftOut
      else Support.accepted) with
      | .accepted => ∀ t c, d.Write fo (.ref (.decimal x)) ≠ .error (.unexpectedType t c)
      | .rejected => d.Write fo (.ref (.decimal x)) = .error (.unexpectedType (.ref (.decimal x)) d)
      | .leftOut => True)
    by_cases hz : sdecimal.Zero.Equal x = true ∧ d.nobits = 32
    · rw [if_pos hz]; trivial
    · rw [if_neg hz]; exact Write_of_parsed fo d _ x hw rfl hz
  case string t =>
    cases hN : sdecimal.NewFromString t with
    | none =>
      have hs : supportOn d.nobits (.ref (.string t)) = .accepted := by
        simp only [supportOn, hN]
      rw [hs]
      intro t' c
      rw [Write_error fo d _ .newFromString (by simp only [Decimal.normalize, hN])]
      intro h; cases h
    | some x =>
      have hn : d.normalize (.ref (.string t)) = d.parseShopSpringDecimalValue (some x) := by
        simp only [Decimal.normalize, hN]
      by_cases hz : sdecimal.Zero.Equal x = true ∧ d.nobits = 32
      · have hs : supportOn d.nobits (.ref (.string t)) = .leftOut := by
          simp only [supportOn, hN, hz, and_self, if_true]
        rw [hs]; trivial
      · have hs : supportOn d.nobits (.ref (.string t)) = .accepted := by
          simp only [supportOn, hN, hz, if_false]
        rw [hs]; exact Write_of_parsed fo d _ x hw hn hz
  all_goals
    dsimp only at h32 h64 h128 hn
    obtain ⟨p32, p64, p128⟩ := Write_plain fo d _ hn
    rcases hw with hw | hw | hw
    · simp only [supportOn, hw]
      first
        | (rw [p32 hw]; exact h32.2)
        | trivial
    · simp only [supportOn, hw]
      rw [p64 hw]; exact h64.2
    · simp only [supportOn, hw]
      rw [p128 hw]; exact h128.2

/-- C15 as stated fails: a `uint` (and a reference to one) is among the types the claim
lists as accepted, and on the columns of all three widths Write answers the
unexpected-type error for it. -/
theorem C15_uint_counterexample :
    (Decimal.mk "c" "Decimal(9,0)" 32 9 0).Write ⟨id, fun _ _ => 0, fun _ _ => 0⟩
        (.val (.uint 1)) =
        .error (.unexpectedType (.val (.uint 1)) (Decimal.mk "c" "Decimal(9,0)" 32 9 0)) ∧
      (Decimal.mk "c" "Decimal(18,0)" 64 18 0).Write ⟨id, fun _ _ => 0, fun _ _ => 0⟩
        (.val (.uint 1)) =
        .error (.unexpectedType (.val (.uint 1)) (Decimal.mk "c" "Decimal(18,0)" 64 18 0)) ∧
      (Decimal.mk "c" "Decimal(38,0)" 128 38 0).Write ⟨id, fun _ _ => 0, fun _ _ => 0⟩
        (.ref (.uint 1)) =
        .error (.unexpectedType (.ref (.uint 1)) (Decimal.mk "c" "Decimal(38,0)" 128 38 0)) := by
  refine ⟨by rfl, by rfl, by rfl⟩

/-- C15, amended: on every width Write never answers the unexpected-type error for an
int8, int16, int32, int64, uint8, uint16, uint32, uint64, float32 or float64, for a
decimal or a decimal string, or for a reference to one of these, nor for an int on the
widths 64 and 128 or a byte buffer on width 128; it answers that error, carrying the
received value and the column, for a uint, for a byte buffer on the widths 32 and 64, for
nil and for any type no case names.  An int, and a decimal or string equal to zero, on
width 32 are left out. -/
theorem C15_supported_types (fo : FloatOps) (d : Decimal) (v : Value)
    (hw : d.nobits = 32 ∨ d.nobits = 64 ∨ d.nobits = 128) :
    match supportOn d.nobits v with
    | .accepted => ∀ t c, d.Write fo v ≠ .error (.unexpectedType t c)
    | .rejected => d.Write fo v = .error (.unexpectedType v d)
    | .leftOut => True := by
  rcases v with _ | s | s | _
  · show d.Write fo .nil = .error (.unexpectedType .nil d)
    rcases hw with hw | hw | hw
    · rw [Write_width32 fo d .nil .nil hw rfl]; rfl
    · rw [Write_width64 fo d .nil .nil hw rfl]; rfl
    · rw [Write_width128 fo d .nil .nil hw rfl]; rfl
  · exact support_val fo d s hw
  · exact support_ref fo d s hw
  · trivial

/-- The witness of C15: a `float64` on a `Decimal(38,0)` column. -/
theorem C15_supported_types_witness :
    match supportOn (Decimal.mk "c" "Decimal(38,0)" 128 38 0).nobits (.val (.float64 0)) with
    | .accepted => ∀ t c,
        (Decimal.mk "c" "Decimal(38,0)" 128 38 0).Write ⟨id, fun _ _ => 0, fun _ _ => 0⟩
          (.val (.float64 0)) ≠ .error (.unexpectedType t c)
    | .rejected =>
        (Decimal.mk "c" "Decimal(38,0)" 128 38 0).Write ⟨id, fun _ _ => 0, fun _ _ => 0⟩
          (.val (.float64 0)) =
          .error (.unexpectedType (.val (.float64 0)) (Decimal.mk "c" "Decimal(38,0)" 128 38 0))
    | .leftOut => True :=
  C15_supported_types ⟨id, fun _ _ => 0, fun _ _ => 0⟩ (Decimal.mk "c" "Decimal(38,0)" 128 38 0)
    (.val (.float64 0)) (Or.inr (Or.inr rfl))


theorem fixedDigits_length (n m : Nat) : (fixedDigits n m).length = n := by
  induction n generalizing m with
  | zero => rfl
  | succ n ih => simp [fixedDigits, ih]

theorem fixedDigits_zero (n : Nat) : fixedDigits n 0 = List.replicate n '0' := by
  induction n with
  | zero => rfl
  | succ n ih =>
    have h : (0 % 10).digitChar = '0' := rfl
    simp only [fixedDigits, Nat.zero_div, ih, h]
    exact (List.replicate_succ' n '0').symm

theorem toDigits_length_step (m : Nat) (h : 10 ≤ m) :
    (Nat.toDigits 10 m).length = (Nat.toDigits 10 (m / 10)).length + 1 := by
  rw [toDigits_step m h]; simp

theorem toDigits_length_small (m : Nat) (h : m < 10) : (Nat.toDigits 10 m).length = 1 := by
  rw [toDigits_small m h]; rfl

theorem toDigits_lt_pow (m : Nat) : m < 10 ^ (Nat.toDigits 10 m).length := by
  induction m using Nat.strong_induction_on with
  | _ m ih =>
    by_cases h : m < 10
    · rw [toDigits_length_small m h]; omega
    · have := ih (m / 10) (by omega)
      rw [toDigits_length_step m (by omega), pow_succ]
      omega

theorem toDigits_pow_le (m : Nat) (hm : 0 < m) : 10 ^ ((Nat.toDigits 10 m).length - 1) ≤ m := by
  induction m using Nat.strong_induction_on with
  | _ m ih =>
    by_cases h : m < 10
    · rw [toDigits_length_small m h]; simpa using hm
    · have := ih (m / 10) (by omega) (by omega)
      rw [toDigits_length_step m (by omega)]
      have hl : 1 ≤ (Nat.toDigits 10 (m / 10)).length := by
        have := (toDigits_spec (m / 10)).1
        exact List.length_pos.mpr this
      have e : (Nat.toDigits 10 (m / 10)).length + 1 - 1 =
          ((Nat.toDigits 10 (m / 10)).length - 1) + 1 := by omega
      rw [e, pow_succ]
      omega

/-- The digits of `m` split `n` places from the right: the digits of `m / 10 ^ n` and the
`n` low-order digits. -/
theorem toDigits_split (n m : Nat) (h : 10 ^ n ≤ m) :
    Nat.toDigits 10 m = Nat.toDigits 10 (m / 10 ^ n) ++ fixedDigits n m := by
  induction n generalizing m with
  | zero => simp [fixedDigits]
  | succ n ih =>
    have h10 : 10 ≤ m := by
      have : 10 ^ 1 ≤ 10 ^ (n + 1) := Nat.pow_le_pow_right (by decide) (by omega)
      omega
    have hn : 10 ^ n ≤ m / 10 := by
      rw [pow_succ] at h
      omega
    rw [toDigits_step m h10, ih (m / 10) hn, fixedDigits, List.append_assoc,
      Nat.div_div_eq_div_mul, pow_succ, Nat.mul_comm 10 (10 ^ n)]

/-- A number of at most `n` digits, zero-padded on the left to `n` digits. -/
theorem toDigits_pad (n m : Nat) (h : (Nat.toDigits 10 m).length ≤ n) :
    List.replicate (n - (Nat.toDigits 10 m).length) '0' ++ Nat.toDigits 10 m =
      fixedDigits n m := by
  induction n generalizing m with
  | zero =>
    have := List.length_pos.mpr (toDigits_spec m).1
    omega
  | succ n ih =>
    by_cases hm : m < 10
    · have h0 : m / 10 = 0 := by omega
      have h1 : m % 10 = m := by omega
      rw [toDigits_length_small m hm, toDigits_small m hm, fixedDigits, h0, h1,
        fixedDigits_zero]
      simp
    · have hstep := toDigits_length_step m (by omega)
      rw [hstep] at h
      have e : n + 1 - (Nat.toDigits 10 m).length = n - (Nat.toDigits 10 (m / 10)).length := by
        omega
      rw [e, toDigits_step m (by omega), fixedDigits, ← List.append_assoc,
        ih (m / 10) (by omega)]
theorem string_split (m n : Nat) (hn : 1 ≤ n) :
    (if (Nat.toDigits 10 m).length > n then
        ((Nat.toDigits 10 m).take ((Nat.toDigits 10 m).length - n),
          (Nat.toDigits 10 m).drop ((Nat.toDigits 10 m).length - n))
      else (['0'], List.replicate (n - (Nat.toDigits 10 m).length) '0' ++ Nat.toDigits 10 m)) =
      (Nat.toDigits 10 (m / 10 ^ n), fixedDigits n m) := by
  by_cases h : (Nat.toDigits 10 m).length > n
  · rw [if_pos h]
    have hm : 0 < m := by
      rcases Nat.eq_zero_or_pos m with h0 | h0
      · rw [h0, toDigits_length_small 0 (by decide)] at h; omega
      · exact h0
    have hpow : 10 ^ n ≤ m :=
      le_trans (Nat.pow_le_pow_right (by decide) (by omega)) (toDigits_pow_le m hm)
    have hs := toDigits_split n m hpow
    have hl : (Nat.toDigits 10 m).length - n = (Nat.toDigits 10 (m / 10 ^ n)).length := by
      have := congrArg List.length hs
      rw [List.length_append, fixedDigits_length] at this
      omega
    rw [hl]
    conv_lhs => rw [hs]
    rw [List.take_left', List.drop_left']
    · rfl
    · rfl
  · rw [if_neg h]
    have hlt : m < 10 ^ n :=
      lt_of_lt_of_le (toDigits_lt_pow m) (Nat.pow_le_pow_right (by decide) (by omega))
    rw [Nat.div_eq_of_lt hlt, toDigits_pad n m (by omega)]
    rfl

theorem string_canonical (v : Int) (n : Nat) (hn : 1 ≤ n) (t : Bool) :
    (sdecimal.New v (-(n : Int))).string t = canonicalFixed v n t := by
  have hexp : ¬ (-(n : Int) ≥ 0) := by omega
  have hto : (-(-(n : Int))).toNat = n := by omega
  unfold sdecimal.Decimal.string sdecimal.New canonicalFixed
  simp only [hexp, if_false, hto, string_split v.natAbs n hn]
  have hl : ∀ l : List Char, (l.length > 0) = (¬ l = []) := by
    intro l
    cases l <;> simp
  simp only [hl, ite_not]

set_option maxRecDepth 8000 in
theorem decode_wire128 (v : Int) (hlo : -(2 ^ 127) ≤ v) (hhi : v ≤ 2 ^ 127 - 1) :
    ∃ buf, decimal128ToBigInt (leBytes 16 (v % 2 ^ 128).toNat) = .ok (v, buf) := by
  apply map_fst_ok
  rw [decimal128ToBigInt_value (leBytes_length _ _), leValue_leBytes]
  have hmod : (v % 2 ^ 128).toNat % 256 ^ 16 = (v % 2 ^ 128).toNat := by omega
  rw [hmod]
  by_cases hx : v < 0
  · have h1 : 2 ^ 127 ≤ (v % 2 ^ 128).toNat := by omega
    have h2 : ((v % 2 ^ 128).toNat : Int) - 2 ^ 128 = v := by omega
    rw [if_pos h1, h2]
  · have h1 : ¬ 2 ^ 127 ≤ (v % 2 ^ 128).toNat := by omega
    have h2 : ((v % 2 ^ 128).toNat : Int) = v := by omega
    rw [if_neg h1, h2]

theorem String_canonical (v scale : Int) (hs : 0 < scale) :
    (sdecimal.New v (-scale)).String = String.mk (canonicalFixed v scale.toNat true) := by
  have h := string_canonical v scale.toNat (by omega) true
  have e : ((scale.toNat : Nat) : Int) = scale := by omega
  rw [e] at h
  unfold sdecimal.Decimal.String
  rw [h]

/-- C17 as stated fails: the wire integer 500 on a `Decimal(18,2)` column reads as "5",
where the form with exactly two digits after the point is "5.00". -/
theorem C17_trailing_zeros_counterexample :
    (Decimal.mk "c" "Decimal(18,2)" 64 18 2).Read (wire 64 500) = .ok "5" ∧
      String.mk (canonicalFixed 500 2 false) = "5.00" := by
  refine ⟨by rfl, by rfl⟩

set_option maxRecDepth 8000 in
/-- C17, amended: for every scale > 0, on the widths 64 and 128 for every wire integer v
and on width 32 for every non-negative one, the string Read returns is the canonical
base-10 form of v * 10^(-scale), with a leading '-' for a negative v and no leading zeros
other than a single 0 before the point, in which the trailing zeros of the scale fraction
digits are trimmed and the point is dropped when no fraction digit is left. -/
theorem C17_read_format (d : Decimal) (v : Int) (hs : 0 < d.scale ∧ d.scale ≤ MaxInt32)
    (hv : (d.nobits = 32 ∧ 0 ≤ v ∧ v ≤ MaxInt32) ∨ (d.nobits = 64 ∧ MinInt64 ≤ v ∧ v ≤ MaxInt64) ∨
      (d.nobits = 128 ∧ -(2 ^ 127) ≤ v ∧ v ≤ 2 ^ 127 - 1)) :
    d.Read (wire d.nobits v) = .ok (String.mk (canonicalFixed v d.scale.toNat true)) := by
  have hsc : int32 (-d.scale) = -d.scale := by
    have := hs.2
    unfold MaxInt32 at this
    unfold int32
    omega
  rcases hv with ⟨hw, h0, h1⟩ | ⟨hw, h0, h1⟩ | ⟨hw, h0, h1⟩
  · have hwire : wire d.nobits v = leBytes 4 (uint32 v) := by
      rw [hw]; rfl
    have hu : ((uint32 v : Nat) : Int) = v := by
      unfold MaxInt32 at h1
      unfold uint32
      omega
    have hi : int64 v = v := by
      unfold MaxInt32 at h1
      unfold int64
      omega
    unfold Decimal.Read
    rw [if_pos hw, hwire, Decoder_UInt32_leBytes]
    dsimp only
    rw [hu, hi, hsc, String_canonical v d.scale hs.1]
  · have hwire : wire d.nobits v = leBytes 8 (uint64 v) := by
      rw [hw]; rfl
    unfold Decimal.Read
    rw [if_neg (by omega), if_pos hw, hwire, Decoder_Int64_leBytes v h0 h1]
    dsimp only
    rw [hsc, String_canonical v d.scale hs.1]
  · have hwire : wire d.nobits v = leBytes 16 (v % 2 ^ 128).toNat := by
      rw [hw]; rfl
    obtain ⟨buf, hbuf⟩ := decode_wire128 v h0 h1
    have hlen : ¬ (leBytes 16 (v % 2 ^ 128).toNat).length < 16 := by
      rw [leBytes_length]; omega
    have htake : (leBytes 16 (v % 2 ^ 128).toNat).take 16 = leBytes 16 (v % 2 ^ 128).toNat :=
      List.take_of_length_le (by rw [leBytes_length])
    unfold Decimal.Read
    rw [if_neg (by omega), if_neg (by omega), if_pos hw, hwire]
    unfold Decoder.Decimal128
    rw [if_neg hlen]
    dsimp only
    rw [htake, hbuf]
    dsimp only
    show Except.ok (sdecimal.New v (int32 (-d.scale))).String = _
    rw [hsc, String_canonical v d.scale hs.1]

/-- The witness of C17: the wire integer -12345 on a `Decimal(38,3)` column. -/
theorem C17_read_format_witness :
    (Decimal.mk "c" "Decimal(38,3)" 128 38 3).Read
        (wire (Decimal.mk "c" "Decimal(38,3)" 128 38 3).nobits (-12345)) =
      .ok (String.mk (canonicalFixed (-12345) (Decimal.mk "c" "Decimal(38,3)" 128 38 3).scale.toNat
        true)) :=
  C17_read_format (Decimal.mk "c" "Decimal(38,3)" 128 38 3) (-12345) (by decide)
    (Or.inr (Or.inr ⟨rfl, by norm_num, by norm_num⟩))

/-! ## The native-integer fast path of the 128-bit writer -/

set_option maxRecDepth 8000 in
/-- The bytes of `int64ToDecimal128`: the 16 little-endian bytes of the argument modulo
`2 ^ 128`. -/
theorem int64ToDecimal128_eq (v : Int) (hlo : MinInt64 ≤ v) (hhi : v ≤ MaxInt64) :
    int64ToDecimal128 v = leBytes 16 (v % 2 ^ 128).toNat := by
  unfold MinInt64 at hlo
  unfold MaxInt64 at hhi
  have hlen : (int64ToDecimal128 v).length = 16 := by
    simp [int64ToDecimal128, leBytes_length]
  have hval : leValue (int64ToDecimal128 v) = (v % 2 ^ 128).toNat := by
    unfold int64ToDecimal128
    rw [leValue_append, leBytes_length, leValue_leBytes, leValue_leBytes]
    unfold uint64
    by_cases hv : v < 0
    · rw [if_pos hv]; omega
    · rw [if_neg hv]; omega
  have h := leBytes_leValue (int64ToDecimal128 v)
  rw [hlen, hval] at h
  exact h.symm

set_option maxRecDepth 8000 in
/-- The bytes of `uint64ToDecimal128`: the 16 little-endian bytes of the argument. -/
theorem uint64ToDecimal128_eq (u : Int) (hlo : 0 ≤ u) (hhi : u ≤ 2 ^ 64 - 1) :
    uint64ToDecimal128 u = leBytes 16 (u % 2 ^ 128).toNat := by
  have hlen : (uint64ToDecimal128 u).length = 16 := by
    simp [uint64ToDecimal128, leBytes_length]
  have hz : leValue (List.replicate 8 (0 : Byte)) = 0 := by rfl
  have hval : leValue (uint64ToDecimal128 u) = (u % 2 ^ 128).toNat := by
    unfold uint64ToDecimal128
    rw [leValue_append, leBytes_length, leValue_leBytes, hz]
    unfold uint64
    omega
  have h := leBytes_leValue (uint64ToDecimal128 u)
  rw [hlen, hval] at h
  exact h.symm

/-- The integer part of a decimal of integer value `n` is `n`. -/
theorem coefficientAt_denotes (dec : sdecimal.Decimal) (n : Int) (h : denotesInt dec n) :
    coefficientAt dec.value dec.exp 0 = n := by
  obtain ⟨_, _, h⟩ := h
  unfold coefficientAt
  by_cases he : 0 ≤ dec.exp
  · rw [if_pos he] at h
    rw [if_pos (by omega), Int.add_zero]
    exact h
  · rw [if_neg he] at h
    rw [if_neg (by omega), Int.add_zero, h]
    exact Int.mul_tdiv_cancel _ (pow_ne_zero _ (by norm_num))

/-- A decimal equal to the library's zero has the coefficient 0. -/
theorem value_of_Zero_Equal (dec : sdecimal.Decimal) (h : sdecimal.Zero.Equal dec = true) :
    dec.value = 0 := by
  by_contra hc
  rw [Zero_Equal_false dec hc] at h
  cases h

/-- A decimal of integer value `n` with the coefficient 0 has `n = 0`. -/
theorem denotes_zero (dec : sdecimal.Decimal) (n : Int) (h : denotesInt dec n)
    (hz : dec.value = 0) : n = 0 := by
  obtain ⟨_, _, h⟩ := h
  rw [hz] at h
  by_cases he : 0 ≤ dec.exp
  · rw [if_pos he, Int.zero_mul] at h
    exact h.symm
  · rw [if_neg he] at h
    rcases Int.mul_eq_zero.mp h.symm with h1 | h1
    · exact h1
    · exact absurd h1 (pow_ne_zero _ (by norm_num))

/-- A 16-byte buffer on width 128 reaches the encoder as it is. -/
theorem write128_bytes16 (fo : FloatOps) (d : Decimal) (b : List Byte) (hb : b.length = 16) :
    d.write128 fo (.val (.bytes b)) = .ok b := by
  simp [Decimal.write128, Encoder.Decimal128, hb]

set_option maxRecDepth 8000 in
/-- On a column of width 128 and scale 0, a decimal of integer value `n` is written as the
16 little-endian bytes of `n` modulo `2 ^ 128`. -/
theorem write128_of_denotes (fo : FloatOps) (d : Decimal) (dec : sdecimal.Decimal) (n : Int)
    (hw : d.nobits = 128) (hs : d.scale = 0) (h : denotesInt dec n)
    (hlo : -(2 ^ 128) ≤ n) (hhi : n < 2 ^ 128) :
    ∃ w, d.parseShopSpringDecimalValue (some dec) = .ok w ∧
      d.write128 fo w = .ok (leBytes 16 (n % 2 ^ 128).toNat) := by
  have hc := coefficientAt_denotes dec n h
  unfold Decimal.parseShopSpringDecimalValue
  dsimp only
  cases hz : sdecimal.Zero.Equal dec with
  | true =>
    have hn : n = 0 := denotes_zero dec n h (value_of_Zero_Equal dec hz)
    subst hn
    exact ⟨.val (.int 0), by simp, rfl⟩
  | false =>
    obtain ⟨h1, h2, _⟩ := h
    unfold MinInt32 at h1
    unfold MaxInt32 at h2
    have h32 : int32 (dec.Exponent + int32 d.scale) = dec.exp := by
      rw [hs]
      show int32 (dec.exp + int32 0) = dec.exp
      have : int32 0 = 0 := by decide
      rw [this, Int.add_zero]
      exact int32_id _ h1 h2
    have htmp : (if dec.Exponent ≠ d.scale then
          (sdecimal.NewFromBigInt dec.Coefficient
            (int32 (dec.Exponent + int32 d.scale))).BigInt
        else dec.BigInt) = n := by
      rw [h32]
      have hb : (sdecimal.NewFromBigInt dec.Coefficient dec.exp).BigInt = n := by
        show ((sdecimal.NewFromBigInt dec.value dec.exp).rescale 0).value = n
        rw [rescale_zero_value]; exact hc
      have hb2 : dec.BigInt = n := hb
      split
      · exact hb
      · exact hb2
    have hbytes := bigIntToDecimal128_bytes n hlo hhi
    simp only [Bool.false_eq_true, if_false]
    rw [if_neg (by omega), if_pos hw, htmp]
    cases hb : bigIntToDecimal128 n with
    | none => rw [hb] at hbytes; cases hbytes
    | some p =>
      obtain ⟨a, bytes⟩ := p
      rw [hb] at hbytes
      have hbe : bytes = leBytes 16 (n % 2 ^ 128).toNat := Option.some.inj hbytes
      refine ⟨_, rfl, ?_⟩
      subst hbe
      exact write128_bytes16 fo d _ (leBytes_length _ _)

/-- What `normalize` does with a decimal or string argument. -/
theorem normalize_asDecimal (d : Decimal) (x : Value) (dec : sdecimal.Decimal)
    (h : x.asDecimal = some dec) :
    d.normalize x = d.parseShopSpringDecimalValue (some dec) := by
  cases x with
  | nil => cases h
  | nilDecimalRef => cases h
  | val s =>
    cases s
    case decimal y => have h2 : y = dec := Option.some.inj h; subst h2; rfl
    case string t =>
      have h2 : sdecimal.NewFromString t = some dec := h
      show (match sdecimal.NewFromString t with
        | none => (Except.error Error.newFromString : Except Error Value)
        | some sdv => d.parseShopSpringDecimalValue (some sdv)) = _
      rw [h2]
    all_goals cases h
  | ref s =>
    cases s
    case decimal y => have h2 : y = dec := Option.some.inj h; subst h2; rfl
    case string t =>
      have h2 : sdecimal.NewFromString t = some dec := h
      show (match sdecimal.NewFromString t with
        | none => (Except.error Error.newFromString : Except Error Value)
        | some sdv => d.parseShopSpringDecimalValue (some sdv)) = _
      rw [h2]
    all_goals cases h

theorem normalize_equalValued (d : Decimal) (x : Value) (n : Int) (h : x.equalValued n) :
    ∃ dec, denotesInt dec n ∧ d.normalize x = d.parseShopSpringDecimalValue (some dec) := by
  unfold Value.equalValued at h
  cases ha : x.asDecimal with
  | none => rw [ha] at h; cases h
  | some dec => rw [ha] at h; exact ⟨dec, h, normalize_asDecimal d x dec ha⟩

/-- On a column of width 128 and scale 0, a decimal or string argument of integer value
`n` is written as the 16 little-endian bytes of `n` modulo `2 ^ 128`. -/
theorem Write_equalValued (fo : FloatOps) (d : Decimal) (x : Value) (n : Int)
    (hw : d.nobits = 128) (hs : d.scale = 0) (h : x.equalValued n)
    (hlo : -(2 ^ 128) ≤ n) (hhi : n < 2 ^ 128) :
    d.Write fo x = .ok (leBytes 16 (n % 2 ^ 128).toNat) := by
  obtain ⟨dec, hd, hn⟩ := normalize_equalValued d x n h
  obtain ⟨w, hp, hwr⟩ := write128_of_denotes fo d dec n hw hs hd hlo hhi
  rw [hp] at hn
  rw [Write_width128 fo d x w hw hn, hwr]

set_option maxRecDepth 8000 in
/-- The native integers on width 128: an argument of one of the integer types `write128`
has a case for is written as the 16 little-endian bytes of its value modulo `2 ^ 128`. -/
theorem write128_int_spec (fo : FloatOps) (d : Decimal) (v : Value) (n : Int)
    (hk : v.write64Integer = some n) (hr : v.inRange) :
    d.write128 fo v = .ok (leBytes 16 (n % 2 ^ 128).toNat) := by
  rcases v with _ | s | s | _
  · simp [Value.write64Integer] at hk
  · cases s <;> simp only [Value.write64Integer, Option.some.injEq, reduceCtorEq] at hk <;>
      (have hk2 := hk.symm; subst hk2) <;> simp only [Value.inRange, Scalar.inRange] at hr <;>
      simp only [Decimal.write128, Encoder.Decimal128]
    all_goals first
      | rw [int64_id n (by omega) (by omega),
          int64ToDecimal128_eq n (by unfold MinInt64; omega) (by unfold MaxInt64; omega)]
      | rw [int64ToDecimal128_eq n (by unfold MinInt64; omega) (by unfold MaxInt64; omega)]
      | (have hu : ((uint64 n : Nat) : Int) = n := by unfold uint64; omega
         rw [hu, uint64ToDecimal128_eq n (by omega) (by omega)])
      | rw [uint64ToDecimal128_eq n (by omega) (by omega)]
  · cases s <;> simp only [Value.write64Integer, Option.some.injEq, reduceCtorEq] at hk <;>
      (have hk2 := hk.symm; subst hk2) <;> simp only [Value.inRange, Scalar.inRange] at hr <;>
      simp only [Decimal.write128, Encoder.Decimal128]
    all_goals first
      | rw [int64_id n (by omega) (by omega),
          int64ToDecimal128_eq n (by unfold MinInt64; omega) (by unfold MaxInt64; omega)]
      | rw [int64ToDecimal128_eq n (by unfold MinInt64; omega) (by unfold MaxInt64; omega)]
      | (have hu : ((uint64 n : Nat) : Int) = n := by unfold uint64; omega
         rw [hu, uint64ToDecimal128_eq n (by omega) (by omega)])
      | rw [uint64ToDecimal128_eq n (by omega) (by omega)]
  · simp [Value.write64Integer] at hk

/-- The native integers pass `normalize` as they are. -/
theorem normalize_integer (d : Decimal) (v : Value) (n : Int)
    (hk : v.write64Integer = some n) : d.normalize v = .ok v := by
  rcases v with _ | s | s | _
  · simp [Value.write64Integer] at hk
  · cases s <;> first
      | rfl
      | simp [Value.write64Integer] at hk
  · cases s <;> first
      | rfl
      | simp [Value.write64Integer] at hk
  · simp [Value.write64Integer] at hk

/-- The values of the native integer types lie within 128 bits. -/
theorem integer_bounds (v : Value) (n : Int) (hk : v.write64Integer = some n)
    (hr : v.inRange) : -(2 ^ 63) ≤ n ∧ n ≤ 2 ^ 64 - 1 := by
  rcases v with _ | s | s | _
  · simp [Value.write64Integer] at hk
  · cases s <;> simp only [Value.write64Integer, Option.some.injEq, reduceCtorEq] at hk <;>
      (have hk2 := hk.symm; subst hk2) <;> simp only [Value.inRange, Scalar.inRange] at hr <;>
      omega
  · cases s <;> simp only [Value.write64Integer, Option.some.injEq, reduceCtorEq] at hk <;>
      (have hk2 := hk.symm; subst hk2) <;> simp only [Value.inRange, Scalar.inRange] at hr <;>
      omega
  · simp [Value.write64Integer] at hk

set_option maxRecDepth 8000 in
/-- C21: the native-integer fast path of the 128-bit encoder agrees with the big-integer
transcoder: for every int64 v the 16 bytes of int64ToDecimal128 v are the bytes
bigIntToDecimal128 returns for v, and for every uint64 u (u ≥ 2^63 included) the 16 bytes
of uint64ToDecimal128 u are the bytes bigIntToDecimal128 returns for u; hence on a column
of width 128 and scale 0 an argument of a native integer type the writer has a case for
(int, int8 to int64, uint8 to uint64, or a reference to one) and a decimal or string
argument of equal value are written as the same 16 bytes. -/
theorem C21_fast_path_agrees (fo : FloatOps) (d : Decimal) (v u n : Int) (i x : Value)
    (hw : d.nobits = 128) (hs : d.scale = 0)
    (hv : MinInt64 ≤ v ∧ v ≤ MaxInt64) (hu : 0 ≤ u ∧ u ≤ 2 ^ 64 - 1)
    (hi : i.write64Integer = some n) (hr : i.inRange) (hx : x.equalValued n) :
    (bigIntToDecimal128 v).map Prod.snd = some (int64ToDecimal128 v) ∧
      (bigIntToDecimal128 u).map Prod.snd = some (uint64ToDecimal128 u) ∧
      (int64ToDecimal128 v).length = 16 ∧ (uint64ToDecimal128 u).length = 16 ∧
      d.Write fo (.val (.int64 v)) = .ok (int64ToDecimal128 v) ∧
      d.Write fo (.val (.uint64 u)) = .ok (uint64ToDecimal128 u) ∧
      d.Write fo i = d.Write fo x ∧
      ∃ b : List Byte, b.length = 16 ∧ d.Write fo x = .ok b ∧
        (bigIntToDecimal128 n).map Prod.snd = some b := by
  obtain ⟨hv1, hv2⟩ := hv
  obtain ⟨hu1, hu2⟩ := hu
  have ev := int64ToDecimal128_eq v hv1 hv2
  have eu := uint64ToDecimal128_eq u hu1 hu2
  unfold MinInt64 at hv1
  unfold MaxInt64 at hv2
  have bv := bigIntToDecimal128_bytes v (by omega) (by omega)
  have bu := bigIntToDecimal128_bytes u (by omega) (by omega)
  obtain ⟨hn1, hn2⟩ := integer_bounds i n hi hr
  have bn := bigIntToDecimal128_bytes n (by omega) (by omega)
  have wx := Write_equalValued fo d x n hw hs hx (by omega) (by omega)
  have wi : d.Write fo i = .ok (leBytes 16 (n % 2 ^ 128).toNat) := by
    rw [Write_width128 fo d i i hw (normalize_integer d i n hi)]
    exact write128_int_spec fo d i n hi hr
  rw [← ev] at bv
  rw [← eu] at bu
  refine ⟨bv, bu, ?_, ?_, ?_, ?_, ?_, ⟨_, leBytes_length _ _, wx, bn⟩⟩
  · rw [ev, leBytes_length]
  · rw [eu, leBytes_length]
  · exact Write_width128 fo d (.val (.int64 v)) (.val (.int64 v)) hw rfl
  · exact Write_width128 fo d (.val (.uint64 u)) (.val (.uint64 u)) hw rfl
  · rw [wi, wx]

set_option maxRecDepth 8000 in
/-- The witness of C21: `math.MinInt64` and the largest `uint64` through both encoders,
and the `uint64` argument `18446744073709551615` against the string of the same digits on
a `Decimal(38,0)` column. -/
theorem C21_fast_path_agrees_witness :
    (bigIntToDecimal128 (-9223372036854775808)).map Prod.snd =
        some (int64ToDecimal128 (-9223372036854775808)) ∧
      (bigIntToDecimal128 18446744073709551615).map Prod.snd =
        some (uint64ToDecimal128 18446744073709551615) ∧
      (int64ToDecimal128 (-9223372036854775808)).length = 16 ∧
      (uint64ToDecimal128 18446744073709551615).length = 16 ∧
      (Decimal.mk "c" "Decimal(38,0)" 128 38 0).Write ⟨id, fun _ _ => 0, fun _ _ => 0⟩
        (.val (.int64 (-9223372036854775808))) =
        .ok (int64ToDecimal128 (-9223372036854775808)) ∧
      (Decimal.mk "c" "Decimal(38,0)" 128 38 0).Write ⟨id, fun _ _ => 0, fun _ _ => 0⟩
        (.val (.uint64 18446744073709551615)) =
        .ok (uint64ToDecimal128 18446744073709551615) ∧
      (Decimal.mk "c" "Decimal(38,0)" 128 38 0).Write ⟨id, fun _ _ => 0, fun _ _ => 0⟩
          (.val (.uint64 18446744073709551615)) =
        (Decimal.mk "c" "Decimal(38,0)" 128 38 0).Write ⟨id, fun _ _ => 0, fun _ _ => 0⟩
          (.val (.string "18446744073709551615")) ∧
      ∃ b : List Byte, b.length = 16 ∧
        (Decimal.mk "c" "Decimal(38,0)" 128 38 0).Write ⟨id, fun _ _ => 0, fun _ _ => 0⟩
          (.val (.string "18446744073709551615")) = .ok b ∧
        (bigIntToDecimal128 18446744073709551615).map Prod.snd = some b :=
  C21_fast_path_agrees ⟨id, fun _ _ => 0, fun _ _ => 0⟩
    (Decimal.mk "c" "Decimal(38,0)" 128 38 0) (-9223372036854775808) 18446744073709551615
    18446744073709551615 (.val (.uint64 18446744073709551615))
    (.val (.string "18446744073709551615"))
    rfl rfl ⟨by decide, by decide⟩ ⟨by decide, by decide⟩ rfl (by decide) (by decide)

/-! ## What `bigIntToDecimal128` does to its argument -/

set_option maxRecDepth 8000 in
/-- The value the argument of `bigIntToDecimal128` holds after the call: a non-negative
argument is left as it was, a negative `x` has become `-x - 1`. -/
theorem bigIntToDecimal128_argument (x : Int) (hlo : -(2 ^ 127) ≤ x) (hhi : x ≤ 2 ^ 127 - 1) :
    (bigIntToDecimal128 x).map Prod.fst = some (if x < 0 then -x - 1 else x) := by
  by_cases hx : x < 0
  · have hfit : (bigNot x).natAbs < 256 ^ 16 := by unfold bigNot; omega
    rw [bigIntToDecimal128_neg hx, fillBytes_of_lt hfit, if_pos hx]
    rfl
  · have hfit : x.natAbs < 256 ^ 16 := by omega
    rw [bigIntToDecimal128_nonneg hx, fillBytes_of_lt hfit, if_neg hx]
    rfl

set_option maxRecDepth 8000 in
/-- C22: bigIntToDecimal128 does not leave a negative argument unchanged: called on -1 it
returns sixteen bytes 0xff and the argument holds 0 afterwards, and called on -(2^127),
the lower end of the range, the argument holds 2^127 - 1 afterwards; a non-negative
argument such as 1 is left as it was. -/
theorem C22_negative_argument_overwritten :
    bigIntToDecimal128 (-1) = some (0, List.replicate 16 0xff) ∧
      (bigIntToDecimal128 (-1)).map Prod.fst ≠ some (-1) ∧
      (bigIntToDecimal128 (-(2 ^ 127))).map Prod.fst = some (2 ^ 127 - 1) ∧
      (bigIntToDecimal128 1).map Prod.fst = some 1 := by
  refine ⟨by rfl, ?_, by rfl, by rfl⟩
  intro h
  have h0 : (bigIntToDecimal128 (-1)).map Prod.fst = some 0 := by rfl
  rw [h0] at h
  exact absurd (Option.some.inj h) (by decide)

/-! ## The round trip on width 64 -/

/-- At scale 0 the library's string is the canonical form without a fraction. -/
theorem String_canonical_zero (v : Int) :
    (sdecimal.New v 0).String = String.mk (canonicalFixed v 0 true) := by
  simp [sdecimal.Decimal.String, sdecimal.Decimal.string, sdecimal.New,
    sdecimal.Decimal.rescale, canonicalFixed, fixedDigits, bigIntString]

/-- The library's string of the decimal with coefficient `v` and exponent `-scale`, for
every scale from 0 on: the canonical form with the trailing zeros trimmed. -/
theorem String_canonical_from_zero (v scale : Int) (hs : 0 ≤ scale) :
    (sdecimal.New v (-scale)).String = String.mk (canonicalFixed v scale.toNat true) := by
  by_cases h : 0 < scale
  · exact String_canonical v scale h
  · have h0 : scale = 0 := by omega
    rw [h0]
    exact String_canonical_zero v

/-- C6 as stated fails: on a `Decimal(18,2)` column the int64 value 500 is written as the
eight bytes f4 01 00 00 00 00 00 00 and Read of them returns "5", where 500 with a decimal
point inserted two digits from the right is "5.00". -/
theorem C6_point_inserted_counterexample :
    (Decimal.mk "c" "Decimal(18,2)" 64 18 2).Write ⟨id, fun _ _ => 0, fun _ _ => 0⟩
        (.val (.int64 500)) = .ok [0xf4, 0x01, 0, 0, 0, 0, 0, 0] ∧
      (Decimal.mk "c" "Decimal(18,2)" 64 18 2).Read [0xf4, 0x01, 0, 0, 0, 0, 0, 0] = .ok "5" ∧
      String.mk (canonicalFixed 500 2 false) = "5.00" ∧ ("5" : String) ≠ "5.00" := by
  refine ⟨by rfl, by rfl, by rfl, by decide⟩

/-- C6, amended: on a width-64 column with precision in 10..18 and scale in
[0, precision], for every signed 64-bit integer v given as an int64 or by reference, Write
emits the 8 little-endian bytes of v and Read applied to them returns the string of the
decimal with coefficient v and exponent -scale, which is the canonical base-10 form of
v * 10^(-scale): the sign preserved, no leading zeros other than a single 0 before the
point, the point scale digits from the right, the trailing zeros of the fraction trimmed
and the point dropped when no fraction digit is left. -/
theorem C6_roundtrip64 (fo : FloatOps) (d : Decimal) (v : Int)
    (hw : d.nobits = 64) (hp : 10 ≤ d.precision ∧ d.precision ≤ 18)
    (hs : 0 ≤ d.scale ∧ d.scale ≤ d.precision) (hlo : MinInt64 ≤ v) (hhi : v ≤ MaxInt64) :
    ∃ bytes : List Byte,
      d.Write fo (.val (.int64 v)) = .ok bytes ∧ d.Write fo (.ref (.int64 v)) = .ok bytes ∧
        bytes.length = 8 ∧ bytes = wire 64 v ∧
        d.Read bytes = .ok (sdecimal.New v (-d.scale)).String ∧
        d.Read bytes = .ok (String.mk (canonicalFixed v d.scale.toNat true)) := by
  have hsc : int32 (-d.scale) = -d.scale := by unfold int32; omega
  have hread : d.Read (leBytes 8 (uint64 v)) = .ok (sdecimal.New v (-d.scale)).String := by
    simp [Decimal.Read, hw, Decoder_Int64_leBytes v hlo hhi, hsc]
  refine ⟨leBytes 8 (uint64 v), ?_, ?_, leBytes_length _ _, rfl, hread, ?_⟩
  · simp [Decimal.Write, Decimal.normalize, Decimal.write64, Encoder.Int64, hw,
      int64_of_inRange hlo hhi]
  · simp [Decimal.Write, Decimal.normalize, Decimal.write64, Encoder.Int64, hw,
      int64_of_inRange hlo hhi]
  · rw [hread, String_canonical_from_zero v d.scale hs.1]

/-- The witness of C6: the value -500 on a `Decimal(18,2)` column. -/
theorem C6_roundtrip64_witness :
    ∃ bytes : List Byte,
      (Decimal.mk "c" "Decimal(18,2)" 64 18 2).Write ⟨id, fun _ _ => 0, fun _ _ => 0⟩
          (.val (.int64 (-500))) = .ok bytes ∧
        (Decimal.mk "c" "Decimal(18,2)" 64 18 2).Write ⟨id, fun _ _ => 0, fun _ _ => 0⟩
          (.ref (.int64 (-500))) = .ok bytes ∧
        bytes.length = 8 ∧ bytes = wire 64 (-500) ∧
        (Decimal.mk "c" "Decimal(18,2)" 64 18 2).Read bytes =
          .ok (sdecimal.New (-500) (-(Decimal.mk "c" "Decimal(18,2)" 64 18 2).scale)).String ∧
        (Decimal.mk "c" "Decimal(18,2)" 64 18 2).Read bytes =
          .ok (String.mk (canonicalFixed (-500)
            (Decimal.mk "c" "Decimal(18,2)" 64 18 2).scale.toNat true)) :=
  C6_roundtrip64 ⟨id, fun _ _ => 0, fun _ _ => 0⟩ (Decimal.mk "c" "Decimal(18,2)" 64 18 2) (-500)
    rfl (by decide) (by decide) (by decide) (by decide)
end Column
